import Mathlib

/-! # go-websocket-demo: protocol codec, notifier, database and session loops

A shallow embedding of `messages.go`, `protocol.go`, `notifier.go`, `database.go`,
`server.go` (`runClient`) and the context plumbing of `client.go` (`askServer`,
`pingPong`), followed by the properties proved about them.

Conventions of the embedding:

* a Go `string` / `[]byte` is a list of bytes (`GoString`), each byte a `Nat` below 256;
* a Go slice is `Slice α`: `none` is the nil slice, `some l` a non-nil slice;
* `int` and `int64` are `Int`, wrapped to 64 bits where the code does arithmetic;
* `float64` is its IEEE-754 bit pattern (`Float64`); the text `strconv` writes and reads
  for a `float64` is a parameter (`Strconv`);
* `encoding/json`, `unicode/utf8` and the integer part of `strconv` are embedded from the
  Go standard library as far as `Encode` and `Decode` use them;
* a pointer is the address (`Nat`) of the value it points to;
* a mutex-protected global is threaded through as explicit state.
-/

namespace WSDemo

/-! ## Basic Go data -/

/-- A Go string (or byte slice): a sequence of bytes. -/
abbrev GoString := List Nat

/-- The bytes of an ASCII literal. -/
def str (s : String) : GoString := s.toList.map Char.toNat

/-- A Go slice: `none` is the nil slice. -/
abbrev Slice (α : Type) := Option (List α)

/-- The elements a `range` loop visits. -/
def Slice.toList {α : Type} : Slice α → List α
  | none => []
  | some l => l

/-- An IEEE-754 binary64 value, as its 64-bit pattern. -/
structure Float64 where
  bits : Nat
deriving DecidableEq, Repr

/-- Exponent field of a binary64 value. -/
def Float64.expField (f : Float64) : Nat := (f.bits / 2 ^ 52) % 2048

/-- Neither an infinity nor a NaN. -/
def Float64.isFinite (f : Float64) : Bool := f.expField != 2047

/-- The number of binary digits of `n`, for `n` below `2 ^ fuel`. -/
def bitLen : Nat → Nat → Nat
  | 0, _ => 0
  | fuel + 1, n => if n = 0 then 0 else bitLen fuel (n / 2) + 1

/-- Go's conversion `float64(i)` of an `int64`: round to nearest, ties to even. -/
def Float64.ofInt (i : Int) : Float64 :=
  if i = 0 then ⟨0⟩
  else
    let s := if i < 0 then 2 ^ 63 else 0
    let n := i.natAbs
    let e := bitLen 64 n - 1
    if e ≤ 52 then ⟨s + (e + 1023) * 2 ^ 52 + (n * 2 ^ (52 - e) - 2 ^ 52)⟩
    else
      let sh := e - 52
      let q := n / 2 ^ sh
      let r := n % 2 ^ sh
      let half := 2 ^ (sh - 1)
      let q1 := if half < r ∨ (r = half ∧ q % 2 = 1) then q + 1 else q
      ⟨s + (e + 1023) * 2 ^ 52 + (q1 - 2 ^ 52)⟩

/-- Two's-complement wrap of an integer to a Go `int` (64 bits). -/
def wrapInt64 (i : Int) : Int := (i + 2 ^ 63) % 2 ^ 64 - 2 ^ 63

/-- A `time.Time`: seconds and nanoseconds since January 1, year 1 UTC. -/
structure Time where
  sec : Int
  nsec : Int
deriving DecidableEq, Repr

/-- The zero value of `time.Time`. -/
def Time.zero : Time := ⟨0, 0⟩

/-- Go's `Time.Unix()`: seconds since January 1, 1970 UTC. -/
def Time.Unix (t : Time) : Int := t.sec - 62135596800

/-! ## messages.go -/

/-- The constant `Sep`, the byte `:`. -/
def Sep : Nat := 58

/-- Go struct `TickerRequest`. -/
structure TickerRequest where
  Id : GoString
  Tickers : Slice GoString
deriving DecidableEq, Repr

/-- Go struct `SymbolChange`. -/
structure SymbolChange where
  Symbol : GoString
  UpdateTime : Int
  Price : Float64
deriving DecidableEq, Repr

/-- Go struct `TickerChange`. -/
structure TickerChange where
  Changes : Slice SymbolChange
deriving DecidableEq, Repr

/-- Go struct `Ping`. -/
structure Ping where
  Sequence : Int
  Seconds : Int
  Nanos : Int
deriving DecidableEq, Repr

/-- Go struct `Pong`. -/
structure Pong where
  Sequence : Int
  Seconds : Int
  Nanos : Int
deriving DecidableEq, Repr

/-- The interface `Message`: its four implementations. -/
inductive Message where
  | tickerRequest (m : TickerRequest)
  | tickerChange (m : TickerChange)
  | ping (m : Ping)
  | pong (m : Pong)
deriving DecidableEq, Repr

/-- The method `Name()` of each message struct. -/
def Message.Name : Message → GoString
  | .tickerRequest _ => str "TickerRequest"
  | .tickerChange _ => str "TickerChange"
  | .ping _ => str "Ping"
  | .pong _ => str "Pong"

/-! ## database.go -/

/-- Go struct `Ticker`. -/
structure Ticker where
  Symbol : GoString
  UpdateTime : Time
  Price : Float64
deriving DecidableEq, Repr

/-- Go struct `Database`: the map `data` from symbol to ticker. -/
structure Database where
  data : GoString → Option Ticker

/-- `Database.Add`: insert the symbol if it is not already present. -/
def Database.Add (t : Database) (symbol : GoString) (price : Float64) : Database :=
  match t.data symbol with
  | some _ => t
  | none =>
    { data := fun k =>
        if k = symbol then some { Symbol := symbol, UpdateTime := Time.zero, Price := price }
        else t.data k }

/-! ## notifier.go -/

/-- Go struct `Client`, together with the address `ptr` it was allocated at. The
fields are never written after the allocation, so the struct travels with its
address; the notifier's map is keyed by the address. -/
structure Client where
  ptr : Nat
  id : GoString
  generation : Int
  tickers : Slice GoString
  conn : Nat
deriving DecidableEq, Repr

/-- Go struct `Notifier`: the key set of the map `clients`, in some iteration order. -/
structure Notifier where
  clients : List Client
deriving DecidableEq, Repr

/-- `Notifier.Add`: `t.clients[c] = struct{}{}`. -/
def Notifier.Add (t : Notifier) (c : Client) : Notifier :=
  if c.ptr ∈ t.clients.map Client.ptr then t else { clients := t.clients ++ [c] }

/-- `Notifier.Delete`: nothing for a nil client, else `delete(t.clients, c)`. -/
def Notifier.Delete (t : Notifier) (c : Option Client) : Notifier :=
  match c with
  | none => t
  | some c => { clients := t.clients.filter (fun x => decide (x.ptr ≠ c.ptr)) }

/-- The inner loop of `Notifier.Notify` over `client.tickers`, for one changed ticker. -/
def matchClientTickers (changedTicker : Ticker) (clientTickers : List GoString)
    (tickers : List Ticker) : List Ticker :=
  clientTickers.foldl
    (fun acc clientTicker =>
      if changedTicker.Symbol = clientTicker then acc ++ [changedTicker] else acc)
    tickers

/-- The two nested loops of `Notifier.Notify` for one client: the slice `tickers`
that is handed to `client.Notify`. -/
def matchTickers (changed : List Ticker) (clientTickers : Slice GoString) : List Ticker :=
  changed.foldl (fun acc changedTicker => matchClientTickers changedTicker clientTickers.toList acc) []

/-- One `go client.Notify(tickers)` statement. -/
structure Delivery where
  client : Client
  tickers : List Ticker
deriving DecidableEq, Repr

/-- `Notifier.Notify`: the `go client.Notify(tickers)` statements it executes, one loop
iteration per client. The parameter `DB` of the Go method is not used by it and is left
out; `changed` holds the tickers the pointers of the Go slice point to. -/
def Notifier.Notify (t : Notifier) (changed : List Ticker) : List Delivery :=
  t.clients.foldl
    (fun started client =>
      let tickers := matchTickers changed client.tickers
      if tickers.length > 0 then started ++ [{ client := client, tickers := tickers }]
      else started)
    []

/-- `Client.Notify`: the `TickerChange` message it hands to `WriteMessage` for the
client's connection. -/
def Client.Notify (tickers : List Ticker) : TickerChange :=
  { Changes := some (tickers.foldl
      (fun changes ticker =>
        changes ++ [{ Symbol := ticker.Symbol, UpdateTime := ticker.UpdateTime.Unix,
                      Price := ticker.Price }])
      []) }

/-! ## server.go: runClient -/

/-- A Go `error` value, as its text. -/
abbrev GoError := GoString

/-- What `ReadMessage` returns to `runClient`, which looks at the error first. -/
inductive ReadResult where
  | err (e : GoError)
  | msg (m : Message)
deriving DecidableEq, Repr

/-- What the environment supplies to one iteration of the receive loop: the result of
`ReadMessage`, and the result of the `WriteMessage` call if the iteration makes one. -/
structure Input where
  read : ReadResult
  writeErr : Option GoError
deriving DecidableEq, Repr

/-- An observable action of `runClient` on its connection. -/
inductive Event where
  | read (r : ReadResult)
  | write (conn : Nat) (m : Message)
deriving DecidableEq, Repr

/-- The variables `runClient` works on: the globals `NF` and `DB`, the locals `client`
and `cid`, and the next free address of the allocator. -/
structure Session where
  NF : Notifier
  DB : Database
  client : Option Client
  cid : GoString
  nextPtr : Nat

/-- The loop `for ix, ticker := range msg.Tickers { DB.Add(ticker, float64(ix*ix)) }`,
from index `ix` on. -/
def addTickers (DB : Database) : Nat → List GoString → Database
  | _, [] => DB
  | ix, ticker :: rest =>
    addTickers (DB.Add ticker (Float64.ofInt (wrapInt64 ((ix : Int) * (ix : Int))))) (ix + 1) rest

/-- The `switch` of `runClient` for a message read without error. A `break` inside a
case leaves the `switch` only, so every case falls to the end of the loop body. -/
def dispatch (conn : Nat) (s : Session) (m : Message) (writeErr : Option GoError) :
    Session × List Event :=
  match m with
  | .tickerRequest msg =>
    let NF1 := s.NF.Delete s.client
    let client : Client :=
      { ptr := s.nextPtr, id := msg.Id, generation := 0, tickers := msg.Tickers, conn := conn }
    let NF2 := NF1.Add client
    let DB1 := addTickers s.DB 0 msg.Tickers.toList
    ({ NF := NF2, DB := DB1, client := some client, cid := msg.Id, nextPtr := s.nextPtr + 1 }, [])
  | .ping msg =>
    let out : Pong := { Sequence := msg.Sequence, Seconds := msg.Seconds, Nanos := msg.Nanos }
    match writeErr with
    | some _ => (s, [Event.write conn (.pong out)])
    | none => (s, [Event.write conn (.pong out)])
  | _ => (s, [])

/-- The `for` loop of `runClient` over the inputs the environment supplies. The result
is the session at the end, the actions taken, and whether the loop was left (`true`) or
is blocked in `ReadMessage` waiting for a further input (`false`). -/
def runLoop (conn : Nat) : Session → List Input → Session × List Event × Bool
  | s, [] => (s, [], false)
  | s, inp :: rest =>
    match inp.read with
    | .err e => (s, [Event.read (.err e)], true)
    | .msg m =>
      let (s1, evs) := dispatch conn s m inp.writeErr
      let (s2, trace, left) := runLoop conn s1 rest
      (s2, Event.read (.msg m) :: evs ++ trace, left)

/-- The result of `runClient`. -/
structure Outcome where
  NF : Notifier
  DB : Database
  client : Option Client
  trace : List Event
  returned : Bool

/-- `runClient(NF, DB, conn)`: the loop, then `NF.Delete(client)` once the loop is left. -/
def runClient (NF : Notifier) (DB : Database) (conn : Nat) (nextPtr : Nat)
    (inputs : List Input) : Outcome :=
  let (s, trace, left) :=
    runLoop conn { NF := NF, DB := DB, client := none, cid := str "", nextPtr := nextPtr } inputs
  if left then
    { NF := s.NF.Delete s.client, DB := s.DB, client := s.client, trace := trace, returned := true }
  else
    { NF := s.NF, DB := s.DB, client := s.client, trace := trace, returned := false }

/-- The number of frames `runClient` asked `ReadMessage` for. -/
def readCount (trace : List Event) : Nat :=
  (trace.filter (fun e => match e with | .read _ => true | .write _ _ => false)).length

/-- The messages `runClient` wrote, in order. -/
def writes (trace : List Event) : List (Nat × Message) :=
  trace.filterMap (fun e => match e with | .read _ => none | .write c m => some (c, m))

/-- The reply `runClient` builds for a `Ping`. -/
def pongOf (msg : Ping) : Pong :=
  { Sequence := msg.Sequence, Seconds := msg.Seconds, Nanos := msg.Nanos }

/-- The heartbeat contract in the words of the specification: the acceptor reads frames
in order; after each `Ping` it writes one `Pong` with the same three fields on the same
connection before it reads again; it writes nothing else, and stops reading at the
first failed read. -/
def echoTrace (conn : Nat) : List Input → List Event
  | [] => []
  | inp :: rest =>
    match inp.read with
    | .err e => [Event.read (.err e)]
    | .msg (.ping p) =>
      Event.read (.msg (.ping p)) :: Event.write conn (.pong (pongOf p)) :: echoTrace conn rest
    | .msg m => Event.read (.msg m) :: echoTrace conn rest

/-- A run of successive `TickerRequest` messages, as inputs of the receive loop. -/
def requestInputs (reqs : List TickerRequest) : List Input :=
  reqs.map (fun r => { read := .msg (.tickerRequest r), writeErr := none })

/-- The index of the first occurrence of `name` in `ts` (the length when absent). -/
def firstIndex (name : GoString) : List GoString → Nat
  | [] => 0
  | t :: ts => if name = t then 0 else firstIndex name ts + 1

/-- The empty database. -/
def emptyDB : Database := { data := fun _ => none }

/-! ## client.go: the contexts of askServer and pingPong -/

/-- A `context.Context` made by `WithCancel` or `WithTimeout`: its parent (`none` for
`context.Background()`) and whether its `CancelFunc` has been called. -/
structure ContextNode where
  parent : Option Nat
  cancelled : Bool
deriving DecidableEq, Repr

/-- The contexts created so far; a context is named by its position, and so is its
`CancelFunc`. -/
structure Contexts where
  nodes : List ContextNode
deriving DecidableEq, Repr

/-- `context.WithCancel(parent)` / `context.WithTimeout(parent, d)`: the new context
(and its cancel function), timer expiry aside. -/
def Contexts.derive (cs : Contexts) (parent : Option Nat) : Contexts × Nat :=
  ({ nodes := cs.nodes ++ [{ parent := parent, cancelled := false }] }, cs.nodes.length)

/-- Calling the `CancelFunc` of context `id`. -/
def Contexts.cancel (cs : Contexts) (id : Nat) : Contexts :=
  { nodes := cs.nodes.mapIdx (fun i n => if i = id then { n with cancelled := true } else n) }

/-- Whether `Done()` of a context is closed: it or one of its ancestors was cancelled. -/
def Contexts.doneAux (cs : Contexts) : Nat → Nat → Bool
  | 0, _ => false
  | fuel + 1, id =>
    match cs.nodes.get? id with
    | none => false
    | some n =>
      n.cancelled ||
        (match n.parent with
         | none => false
         | some p => Contexts.doneAux cs fuel p)

/-- Whether `Done()` of context `id` is closed. -/
def Contexts.done (cs : Contexts) (id : Nat) : Bool :=
  Contexts.doneAux cs (cs.nodes.length + 1) id

/-- The arguments of the call `pingPong(parentCtx, parentCancel, conn)`: the context, and
the context whose `CancelFunc` is handed over. -/
structure PingPongCall where
  parentCtx : Nat
  parentCancel : Nat
deriving DecidableEq, Repr

/-- The state of `askServer` when it reaches `go pingPong(connCtx, cancel, conn)`: its
contexts, its variables `dialCtx`, `cancel`, `connCtx` and `connCancel`, and the
arguments of the call. -/
structure AskServer where
  ctxs : Contexts
  dialCtx : Nat
  cancel : Nat
  connCtx : Nat
  connCancel : Nat
  call : PingPongCall
deriving DecidableEq, Repr

/-- `askServer` from its start to the statement `go pingPong(connCtx, cancel, conn)`.
`dialErr` and `writeErr` are the results of `websocket.Dial` and of the `WriteMessage`
of the `TickerRequest`; on an error `askServer` returns it and `pingPong` is not
started. -/
def askServer (dialErr writeErr : Option GoError) : GoError ⊕ AskServer :=
  let (cs1, dialCtx) := Contexts.derive { nodes := [] } none
  let cancel := dialCtx
  match dialErr with
  | some err => .inl err
  | none =>
    let (cs2, connCtx) := Contexts.derive cs1 none
    let connCancel := connCtx
    match writeErr with
    | some err => .inl err
    | none =>
      .inr { ctxs := cs2, dialCtx := dialCtx, cancel := cancel, connCtx := connCtx,
             connCancel := connCancel,
             call := { parentCtx := connCtx, parentCancel := cancel } }

/-- One firing of the timer in the `select` of `pingPong`: the time it delivers and the
result of the `WriteMessage` call for the `Ping`. -/
structure Tick where
  now : Time
  writeErr : Option GoError
deriving DecidableEq, Repr

/-- The loop of `pingPong` from sequence number `seq` on, over the timer firings the
environment supplies: the `Ping` messages written, and whether the loop was left
(`parentCtx` done, or a write error) or is still waiting in the `select`. -/
def pingPongLoop (cs : Contexts) (call : PingPongCall) : Nat → List Tick → List Ping × Bool
  | _, [] => ([], cs.done call.parentCtx)
  | seq, tick :: rest =>
    if cs.done call.parentCtx then ([], true)
    else
      match tick.writeErr with
      | some _ =>
        ([{ Sequence := seq, Seconds := tick.now.Unix, Nanos := tick.now.nsec }], true)
      | none =>
        ({ Sequence := seq, Seconds := tick.now.Unix, Nanos := tick.now.nsec }
            :: (pingPongLoop cs call (seq + 1) rest).1,
          (pingPongLoop cs call (seq + 1) rest).2)

/-- `pingPong(parentCtx, parentCancel, conn)`: the loop, and the deferred
`parentCancel()` when the function returns. The result is the contexts afterwards, the
`Ping` messages written, and whether the function has returned. -/
def pingPong (cs : Contexts) (call : PingPongCall) (ticks : List Tick) :
    Contexts × List Ping × Bool :=
  (if (pingPongLoop cs call 0 ticks).2 then cs.cancel call.parentCancel else cs,
    (pingPongLoop cs call 0 ticks).1, (pingPongLoop cs call 0 ticks).2)

/-- The read context of one iteration of the receive loop of `askServer`:
`context.WithTimeout(connCtx, pingpongInterval*2)`. -/
def readContext (cs : Contexts) (a : AskServer) : Contexts × Nat :=
  cs.derive (some a.connCtx)

/-- The state of `askServer` at `go pingPong(connCtx, cancel, conn)` after a successful
dial and first write. -/
def exampleAskServer : AskServer :=
  { ctxs := { nodes := [{ parent := none, cancelled := false },
                        { parent := none, cancelled := false }] },
    dialCtx := 0, cancel := 0, connCtx := 1, connCancel := 1,
    call := { parentCtx := 1, parentCancel := 0 } }

/-- A timer firing whose write fails. -/
def exampleFailedTick : Tick := { now := ⟨63000000000, 5⟩, writeErr := some (str "broken pipe") }

/-- The loop invariant of `runClient` on connection `conn`, relative to the clients
`others` that were registered when it started: the allocator is past every registered
address, and the notifier holds `others` plus the current client of the connection, if
there is one. -/
def SessionInv (conn : Nat) (others : List Client) (s : Session) : Prop :=
  (∀ x ∈ others, x.ptr < s.nextPtr) ∧
  ((s.client = none ∧ s.NF.clients = others) ∨
   (∃ c, s.client = some c ∧ c.ptr < s.nextPtr ∧ c.conn = conn ∧
      (∀ x ∈ others, x.ptr < c.ptr) ∧ s.NF.clients = others ++ [c]))

/-- The client `runClient` allocates for a `TickerRequest` on connection `conn`. -/
def clientOf (conn ptr : Nat) (msg : TickerRequest) : Client :=
  { ptr := ptr, id := msg.Id, generation := 0, tickers := msg.Tickers, conn := conn }

/-- The ticker `Database.Add` inserts for a name first seen at index `ix` of a request. -/
def seedTicker (name : GoString) (ix : Nat) : Ticker :=
  { Symbol := name, UpdateTime := Time.zero, Price := Float64.ofInt ((ix : Int) * (ix : Int)) }

/-! ## unicode/utf8 and unicode/utf16 (Go standard library) -/

/-- The constant `utf8.RuneError`, U+FFFD. -/
def RuneError : Nat := 0xFFFD

/-- `utf8.DecodeRune`: the first rune of `p` and its width in bytes; `(RuneError, 1)`
for an invalid encoding and `(RuneError, 0)` for the empty input. -/
def decodeRune : GoString → Nat × Nat
  | [] => (RuneError, 0)
  | p0 :: rest =>
    if p0 < 0x80 then (p0, 1)
    else if p0 < 0xC2 then (RuneError, 1)
    else if p0 < 0xE0 then
      match rest with
      | b1 :: _ =>
        if 0x80 ≤ b1 ∧ b1 ≤ 0xBF then (p0 % 32 * 64 + b1 % 64, 2) else (RuneError, 1)
      | [] => (RuneError, 1)
    else if p0 < 0xF0 then
      match rest with
      | b1 :: b2 :: _ =>
        if (if p0 = 0xE0 then 0xA0 else 0x80) ≤ b1 ∧ b1 ≤ (if p0 = 0xED then 0x9F else 0xBF) then
          if 0x80 ≤ b2 ∧ b2 ≤ 0xBF then (p0 % 16 * 4096 + b1 % 64 * 64 + b2 % 64, 3)
          else (RuneError, 1)
        else (RuneError, 1)
      | _ => (RuneError, 1)
    else if p0 < 0xF5 then
      match rest with
      | b1 :: b2 :: b3 :: _ =>
        if (if p0 = 0xF0 then 0x90 else 0x80) ≤ b1 ∧ b1 ≤ (if p0 = 0xF4 then 0x8F else 0xBF) then
          if 0x80 ≤ b2 ∧ b2 ≤ 0xBF then
            if 0x80 ≤ b3 ∧ b3 ≤ 0xBF then
              (p0 % 8 * 262144 + b1 % 64 * 4096 + b2 % 64 * 64 + b3 % 64, 4)
            else (RuneError, 1)
          else (RuneError, 1)
        else (RuneError, 1)
      | _ => (RuneError, 1)
    else (RuneError, 1)

/-- `utf8.AppendRune` on the empty slice: the UTF-8 encoding of `r`, that of U+FFFD for a
surrogate or a value beyond U+10FFFF. -/
def encodeRune (r : Nat) : GoString :=
  if r < 0x80 then [r]
  else if r ≤ 0x7FF then [0xC0 + r / 64, 0x80 + r % 64]
  else if 0x10FFFF < r ∨ (0xD800 ≤ r ∧ r ≤ 0xDFFF) then [0xEF, 0xBF, 0xBD]
  else if r ≤ 0xFFFF then [0xE0 + r / 4096, 0x80 + r / 64 % 64, 0x80 + r % 64]
  else [0xF0 + r / 262144, 0x80 + r / 4096 % 64, 0x80 + r / 64 % 64, 0x80 + r % 64]

/-- `utf8.Valid`: every rune of the string decodes without error. -/
def validUTF8 : Nat → GoString → Bool
  | 0, s => s.isEmpty
  | _ + 1, [] => true
  | fuel + 1, b :: rest =>
    if (decodeRune (b :: rest)).1 = RuneError ∧ (decodeRune (b :: rest)).2 = 1 then false
    else validUTF8 fuel ((b :: rest).drop (decodeRune (b :: rest)).2)

/-- `utf8.ValidString(s)`. -/
def GoString.valid (s : GoString) : Bool := validUTF8 s.length s

/-- `utf16.DecodeRune`: the code point of a surrogate pair, U+FFFD for anything else. -/
def utf16DecodeRune (r1 r2 : Nat) : Nat :=
  if 0xD800 ≤ r1 ∧ r1 < 0xDC00 ∧ 0xDC00 ≤ r2 ∧ r2 < 0xE000 then
    (r1 - 0xD800) * 1024 + (r2 - 0xDC00) + 0x10000
  else RuneError

/-! ## strconv (Go standard library) -/

/-- The part of `strconv` that turns a `float64` into text and back. It is taken as a
parameter of the codec: `formatFloat f` is the text `encoding/json` writes for a finite
`f` (`strconv.AppendFloat` in the format `encoding/json` chooses), and `parseFloat s` is
`strconv.ParseFloat(s, 64)`, `none` when it reports an error. -/
structure Strconv where
  formatFloat : Float64 → GoString
  parseFloat : GoString → Option Float64

/-- The decimal digits of `n`, most significant first, for `n` below `10 ^ fuel`. -/
def decDigits : Nat → Nat → GoString
  | 0, _ => []
  | fuel + 1, n => if n < 10 then [48 + n] else decDigits fuel (n / 10) ++ [48 + n % 10]

/-- `strconv.AppendInt(nil, i, 10)` for an `int64`. -/
def formatInt (i : Int) : GoString :=
  if i < 0 then 45 :: decDigits 20 i.natAbs else decDigits 20 i.natAbs

/-- The value of a run of decimal digits; `none` if a byte is not a digit. -/
def digitsValue : Nat → GoString → Option Nat
  | acc, [] => some acc
  | acc, c :: rest => if 48 ≤ c ∧ c ≤ 57 then digitsValue (acc * 10 + (c - 48)) rest else none

/-- `strconv.ParseInt(s, 10, 64)`: an optional sign and decimal digits, within the range
of `int64`; `none` when it reports an error. -/
def parseInt64 (s : GoString) : Option Int :=
  match s with
  | [] => none
  | c :: rest =>
    if c = 45 then
      match rest with
      | [] => none
      | _ :: _ =>
        match digitsValue 0 rest with
        | some n => if n ≤ 2 ^ 63 then some (-(n : Int)) else none
        | none => none
    else
      match (if c = 43 then rest else c :: rest) with
      | [] => none
      | d :: ds =>
        match digitsValue 0 (d :: ds) with
        | some n => if n < 2 ^ 63 then some (n : Int) else none
        | none => none

/-! ## encoding/json (Go standard library): Marshal -/

/-- The table `hex` of `encoding/json`: the lower-case hexadecimal digit for `n < 16`. -/
def hexDigit (n : Nat) : Nat := if n < 10 then 48 + n else 87 + n

/-- The table `htmlSafeSet`: the ASCII bytes written as they are, that is all from the
space on but `"`, `\`, `<`, `>` and `&`. -/
def htmlSafe (b : Nat) : Bool :=
  decide (0x20 ≤ b ∧ b < 0x80 ∧ b ≠ 34 ∧ b ≠ 92 ∧ b ≠ 60 ∧ b ≠ 62 ∧ b ≠ 38)

/-- What `appendString` writes for one ASCII byte. -/
def escapeByte (b : Nat) : GoString :=
  if htmlSafe b then [b]
  else if b = 92 ∨ b = 34 then [92, b]
  else if b = 8 then [92, 98]
  else if b = 12 then [92, 102]
  else if b = 10 then [92, 110]
  else if b = 13 then [92, 114]
  else if b = 9 then [92, 116]
  else [92, 117, 48, 48, hexDigit (b / 16), hexDigit (b % 16)]

/-- The loop of `appendString` (with `escapeHTML` set, as `json.Marshal` has it): the
string between the quotes. Invalid UTF-8 is replaced by the escape `\ufffd`. -/
def appendStringBody : Nat → GoString → GoString
  | 0, _ => []
  | _ + 1, [] => []
  | fuel + 1, b :: rest =>
    if b < 0x80 then escapeByte b ++ appendStringBody fuel rest
    else if (decodeRune (b :: rest)).1 = RuneError ∧ (decodeRune (b :: rest)).2 = 1 then
      [92, 117, 102, 102, 102, 100] ++ appendStringBody fuel rest
    else if (decodeRune (b :: rest)).1 = 0x2028 ∨ (decodeRune (b :: rest)).1 = 0x2029 then
      [92, 117, 50, 48, 50, hexDigit ((decodeRune (b :: rest)).1 % 16)]
        ++ appendStringBody fuel ((b :: rest).drop (decodeRune (b :: rest)).2)
    else
      (b :: rest).take (decodeRune (b :: rest)).2
        ++ appendStringBody fuel ((b :: rest).drop (decodeRune (b :: rest)).2)

/-- `appendString`: a Go string as a JSON string literal. -/
def appendString (src : GoString) : GoString :=
  34 :: (appendStringBody src.length src ++ [34])

/-- The elements of an array or members of an object, separated by commas. -/
def commaSep : List GoString → GoString
  | [] => []
  | [x] => x
  | x :: y :: rest => x ++ 44 :: commaSep (y :: rest)

/-- The array encoder: the encoded elements between `[` and `]`. -/
def marshalArray (elems : List GoString) : GoString :=
  91 :: (commaSep elems ++ [93])

/-- The struct encoder: for each field its quoted name, `:` and its encoded value,
between `{` and `}`. -/
def marshalObject (fields : List (GoString × GoString)) : GoString :=
  123 :: (commaSep (fields.map (fun f => appendString f.1 ++ 58 :: f.2)) ++ [125])

/-- The error of `json.Marshal`: `UnsupportedValueError`, for a NaN or an infinity. -/
inductive MarshalError where
  | unsupportedValue (f : Float64)
deriving DecidableEq, Repr

/-- The encoder of a `float64` field. -/
def marshalFloat (sc : Strconv) (f : Float64) : Except MarshalError GoString :=
  if f.isFinite then .ok (sc.formatFloat f) else .error (.unsupportedValue f)

/-- The encoder of a `[]string` field: `null` for the nil slice. -/
def marshalStrings (l : Slice GoString) : GoString :=
  match l with
  | none => str "null"
  | some ss => marshalArray (ss.map appendString)

/-- The encoder of the struct `SymbolChange`. -/
def marshalSymbolChange (sc : Strconv) (c : SymbolChange) : Except MarshalError GoString :=
  match marshalFloat sc c.Price with
  | .error e => .error e
  | .ok price =>
    .ok (marshalObject [(str "Symbol", appendString c.Symbol),
                        (str "UpdateTime", formatInt c.UpdateTime),
                        (str "Price", price)])

/-- The encoders of the elements of a `[]SymbolChange`, stopping at the first error. -/
def marshalChangeList (sc : Strconv) : List SymbolChange → Except MarshalError (List GoString)
  | [] => .ok []
  | c :: rest =>
    match marshalSymbolChange sc c with
    | .error e => .error e
    | .ok b =>
      match marshalChangeList sc rest with
      | .error e => .error e
      | .ok bs => .ok (b :: bs)

/-- The encoder of a `[]SymbolChange` field: `null` for the nil slice. -/
def marshalChanges (sc : Strconv) (l : Slice SymbolChange) : Except MarshalError GoString :=
  match l with
  | none => .ok (str "null")
  | some cs =>
    match marshalChangeList sc cs with
    | .error e => .error e
    | .ok bs => .ok (marshalArray bs)

/-- The encoder of the structs `Ping` and `Pong`. -/
def marshalHeartbeat (sequence seconds nanos : Int) : GoString :=
  marshalObject [(str "Sequence", formatInt sequence), (str "Seconds", formatInt seconds),
                 (str "Nanos", formatInt nanos)]

/-- `json.Marshal(msg)` for the four message structs. -/
def Marshal (sc : Strconv) (msg : Message) : Except MarshalError GoString :=
  match msg with
  | .tickerRequest m =>
    .ok (marshalObject [(str "Id", appendString m.Id), (str "Tickers", marshalStrings m.Tickers)])
  | .tickerChange m =>
    match marshalChanges sc m.Changes with
    | .error e => .error e
    | .ok b => .ok (marshalObject [(str "Changes", b)])
  | .ping m => .ok (marshalHeartbeat m.Sequence m.Seconds m.Nanos)
  | .pong m => .ok (marshalHeartbeat m.Sequence m.Seconds m.Nanos)

/-! ## protocol.go: Encode -/

/-- `Encode`: the message name, `Sep`, and the JSON payload; the error of `json.Marshal`
is dropped (`b, _ := json.Marshal(msg)`), which leaves the payload empty. -/
def Encode (sc : Strconv) (msg : Message) : GoString :=
  let n := msg.Name
  let n := n ++ [Sep]
  let b := match Marshal sc msg with
    | .ok b => b
    | .error _ => []
  n ++ b

/-! ## encoding/json (Go standard library): the scanner -/

/-- A JSON value as the decoder reads it: a number keeps its literal, a string is
already unquoted, an object keeps its members in order. -/
inductive JSON where
  | null
  | bool (b : Bool)
  | number (lit : GoString)
  | string (s : GoString)
  | array (elems : List JSON)
  | object (members : List (GoString × JSON))

/-- The function `isSpace` of the scanner: space, tab, carriage return, line feed. -/
def isSpace (c : Nat) : Bool := c = 32 || c = 9 || c = 13 || c = 10

/-- Skip white space. -/
def skipWS : GoString → GoString
  | [] => []
  | c :: rest => if isSpace c then skipWS rest else c :: rest

/-- The value of a hexadecimal digit. -/
def hexVal (c : Nat) : Option Nat :=
  if 48 ≤ c ∧ c ≤ 57 then some (c - 48)
  else if 97 ≤ c ∧ c ≤ 102 then some (c - 87)
  else if 65 ≤ c ∧ c ≤ 70 then some (c - 55)
  else none

/-- The four hexadecimal digits of a `\u` escape (`getu4`), and the input after them. -/
def hex4 (s : GoString) : Option (Nat × GoString) :=
  match s with
  | a :: b :: c :: d :: rest =>
    match hexVal a, hexVal b, hexVal c, hexVal d with
    | some x, some y, some z, some w => some (x * 4096 + y * 256 + z * 16 + w, rest)
    | _, _, _, _ => none
  | _ => none

/-- The byte a two-character escape stands for: the escapes the scanner accepts. -/
def simpleEscape (e : Nat) : Option Nat :=
  if e = 34 ∨ e = 92 ∨ e = 47 then some e
  else if e = 98 then some 8
  else if e = 102 then some 12
  else if e = 110 then some 10
  else if e = 114 then some 13
  else if e = 116 then some 9
  else none

/-- A `\uXXXX` escape at the head of `s` that is the low half of a surrogate pair
started by `hi`: the code point of the pair and the input after the escape. -/
def lowSurrogate (hi : Nat) (s : GoString) : Option (Nat × GoString) :=
  match s with
  | 92 :: 117 :: s1 =>
    match hex4 s1 with
    | some (lo, rest) =>
      if utf16DecodeRune hi lo ≠ RuneError then some (utf16DecodeRune hi lo, rest) else none
    | none => none
  | _ => none

/-- Put `pre` in front of the string a continuation has read. -/
def prepend (pre : GoString) (r : Option (GoString × GoString)) : Option (GoString × GoString) :=
  match r with
  | some (s, rest) => some (pre ++ s, rest)
  | none => none

/-- A string literal from behind its opening quote: the scanner's states `stateInString`,
`stateInStringEsc` and `stateInStringEscU…` together with `unquote`. The result is the
unquoted string (invalid UTF-8 and lone surrogates replaced by U+FFFD) and the input
behind the closing quote; `none` is a syntax error. -/
def parseStringBody : Nat → GoString → Option (GoString × GoString)
  | 0, _ => none
  | _ + 1, [] => none
  | fuel + 1, c :: r =>
    if c = 34 then some ([], r)
    else if c = 92 then
      match r with
      | [] => none
      | e :: r2 =>
        if e = 117 then
          match hex4 r2 with
          | none => none
          | some (rr, r3) =>
            if 0xD800 ≤ rr ∧ rr < 0xE000 then
              match lowSurrogate rr r3 with
              | some (dec, r4) => prepend (encodeRune dec) (parseStringBody fuel r4)
              | none => prepend (encodeRune RuneError) (parseStringBody fuel r3)
            else prepend (encodeRune rr) (parseStringBody fuel r3)
        else
          match simpleEscape e with
          | some b => prepend [b] (parseStringBody fuel r2)
          | none => none
    else if c < 0x20 then none
    else if c < 0x80 then prepend [c] (parseStringBody fuel r)
    else
      prepend (encodeRune (decodeRune (c :: r)).1)
        (parseStringBody fuel ((c :: r).drop (decodeRune (c :: r)).2))

/-- A string literal from behind its opening quote. -/
def parseString (r : GoString) : Option (GoString × GoString) :=
  parseStringBody (r.length + 1) r

/-- The scanner's states inside a number. -/
inductive NumState where
  | start | neg | zero | int | dot | frac | exp | expSign | expDigits
deriving DecidableEq, Repr

/-- The transition of the scanner inside a number on the byte `c`, `none` when `c`
cannot continue the number. -/
def NumState.step (st : NumState) (c : Nat) : Option NumState :=
  let digit := decide (48 ≤ c ∧ c ≤ 57)
  match st with
  | .start => if c = 45 then some .neg else if c = 48 then some .zero
              else if digit then some .int else none
  | .neg => if c = 48 then some .zero else if digit then some .int else none
  | .zero => if c = 46 then some .dot else if c = 101 ∨ c = 69 then some .exp else none
  | .int => if digit then some .int else if c = 46 then some .dot
            else if c = 101 ∨ c = 69 then some .exp else none
  | .dot => if digit then some .frac else none
  | .frac => if digit then some .frac else if c = 101 ∨ c = 69 then some .exp else none
  | .exp => if c = 43 ∨ c = 45 then some .expSign else if digit then some .expDigits else none
  | .expSign => if digit then some .expDigits else none
  | .expDigits => if digit then some .expDigits else none

/-- The states in which a number may end. -/
def NumState.accepting (st : NumState) : Bool :=
  match st with
  | .zero | .int | .frac | .expDigits => true
  | _ => false

/-- The longest number literal at the head of the input, and the input behind it. -/
def numScan (st : NumState) : GoString → Option (GoString × GoString)
  | [] => if st.accepting then some ([], []) else none
  | c :: r =>
    match st.step c with
    | some st1 => prepend [c] (numScan st1 r)
    | none => if st.accepting then some ([], c :: r) else none

/-- A number literal at the head of the input. -/
def scanNumber (s : GoString) : Option (GoString × GoString) := numScan .start s

/-- The elements of an array from the first element on, `pv` reading one value. -/
def parseElems (pv : GoString → Option (JSON × GoString)) :
    Nat → GoString → Option (List JSON × GoString)
  | 0, _ => none
  | fuel + 1, input =>
    match pv input with
    | none => none
    | some (v, r) =>
      match skipWS r with
      | 44 :: r2 =>
        match parseElems pv fuel (skipWS r2) with
        | some (vs, rest) => some (v :: vs, rest)
        | none => none
      | 93 :: r2 => some ([v], r2)
      | _ => none

/-- An array from behind its `[`. -/
def parseArray (pv : GoString → Option (JSON × GoString)) (r : GoString) :
    Option (JSON × GoString) :=
  match skipWS r with
  | 93 :: rest => some (.array [], rest)
  | r1 =>
    match parseElems pv (r1.length + 1) r1 with
    | some (vs, rest) => some (.array vs, rest)
    | none => none

/-- The members of an object from the first key on, `pv` reading one value. -/
def parseMembers (pv : GoString → Option (JSON × GoString)) :
    Nat → GoString → Option (List (GoString × JSON) × GoString)
  | 0, _ => none
  | fuel + 1, input =>
    match input with
    | 34 :: r =>
      match parseString r with
      | none => none
      | some (key, r1) =>
        match skipWS r1 with
        | 58 :: r2 =>
          match pv (skipWS r2) with
          | none => none
          | some (v, r3) =>
            match skipWS r3 with
            | 44 :: r4 =>
              match parseMembers pv fuel (skipWS r4) with
              | some (ms, rest) => some ((key, v) :: ms, rest)
              | none => none
            | 125 :: r4 => some ([(key, v)], r4)
            | _ => none
        | _ => none
    | _ => none

/-- An object from behind its `{`. -/
def parseObject (pv : GoString → Option (JSON × GoString)) (r : GoString) :
    Option (JSON × GoString) :=
  match skipWS r with
  | 125 :: rest => some (.object [], rest)
  | r1 =>
    match parseMembers pv (r1.length + 1) r1 with
    | some (ms, rest) => some (.object ms, rest)
    | none => none

/-- A value that is not an array or an object, at the head of the input. -/
def parseScalar (input : GoString) : Option (JSON × GoString) :=
  match input with
  | 34 :: r =>
    match parseString r with
    | some (s, rest) => some (.string s, rest)
    | none => none
  | 116 :: 114 :: 117 :: 101 :: rest => some (.bool true, rest)
  | 102 :: 97 :: 108 :: 115 :: 101 :: rest => some (.bool false, rest)
  | 110 :: 117 :: 108 :: 108 :: rest => some (.null, rest)
  | _ =>
    match scanNumber input with
    | some (lit, rest) => some (.number lit, rest)
    | none => none

/-- A value at the head of the input, with at most `depth` arrays and objects nested in
one another. -/
def parseValue : Nat → GoString → Option (JSON × GoString)
  | 0, input =>
    match input with
    | 123 :: _ => none
    | 91 :: _ => none
    | _ => parseScalar input
  | depth + 1, input =>
    match input with
    | 123 :: r => parseObject (parseValue depth) r
    | 91 :: r => parseArray (parseValue depth) r
    | _ => parseScalar input

/-- The scanner's `maxNestingDepth`. -/
def maxNestingDepth : Nat := 10000

/-- The function `checkValid` together with the reading of the value: the input is one
JSON value with white space around it; `none` is a `SyntaxError`. -/
def parseJSON (data : GoString) : Option JSON :=
  match parseValue maxNestingDepth (skipWS data) with
  | some (v, rest) => if (skipWS rest).isEmpty then some v else none
  | none => none

/-! ## encoding/json (Go standard library): Unmarshal into the message structs -/

/-- The errors of `json.Unmarshal`: a `SyntaxError`, or the first `UnmarshalTypeError`
with the description of the JSON value that did not fit its Go field. -/
inductive UnmarshalError where
  | syntaxError
  | unmarshalType (value : GoString)
deriving DecidableEq, Repr

/-- The decoder's `saveError`: the first error is kept. -/
def firstError (saved new : Option UnmarshalError) : Option UnmarshalError :=
  match saved with
  | some e => some e
  | none => new

/-- The function `foldRune` on the runes that fold to an ASCII letter, U+017F to `S` and
U+212A to `K`; every other rune beyond ASCII folds to a rune beyond ASCII and is left as
it is, which does not change the comparison with the ASCII field names. -/
def foldRune (r : Nat) : Nat :=
  if r = 0x17F then 83 else if r = 0x212A then 75 else r

/-- The function `appendFoldedName`: the key in the form that is compared when no field
has exactly the key's name. -/
def foldName : Nat → GoString → GoString
  | 0, _ => []
  | _ + 1, [] => []
  | fuel + 1, c :: rest =>
    if c < 0x80 then
      (if 97 ≤ c ∧ c ≤ 122 then c - 32 else c) :: foldName fuel rest
    else
      encodeRune (foldRune (decodeRune (c :: rest)).1)
        ++ foldName fuel ((c :: rest).drop (decodeRune (c :: rest)).2)

/-- The field an object key stands for: the field with exactly that name, else the
first one with the same folded name. -/
def fieldIndex (names : List GoString) (key : GoString) : Option Nat :=
  match names.findIdx? (fun n => decide (n = key)) with
  | some i => some i
  | none =>
    names.findIdx? (fun n => decide (foldName n.length n = foldName key.length key))

/-- The error for a JSON value of the wrong kind, by the kind of the value. -/
def kindError (j : JSON) : Option UnmarshalError :=
  match j with
  | .null => none
  | .bool _ => some (.unmarshalType (str "bool"))
  | .number _ => some (.unmarshalType (str "number"))
  | .string _ => some (.unmarshalType (str "string"))
  | .array _ => some (.unmarshalType (str "array"))
  | .object _ => some (.unmarshalType (str "object"))

/-- A JSON value into a `string` field holding `cur`. -/
def decodeString (cur : GoString) (j : JSON) : GoString × Option UnmarshalError :=
  match j with
  | .string s => (s, none)
  | _ => (cur, kindError j)

/-- A JSON value into an `int` or `int64` field holding `cur`. -/
def decodeInt (cur : Int) (j : JSON) : Int × Option UnmarshalError :=
  match j with
  | .number lit =>
    match parseInt64 lit with
    | some n => (n, none)
    | none => (cur, some (.unmarshalType (str "number " ++ lit)))
  | _ => (cur, kindError j)

/-- A JSON value into a `float64` field holding `cur`. -/
def decodeFloat (sc : Strconv) (cur : Float64) (j : JSON) : Float64 × Option UnmarshalError :=
  match j with
  | .number lit =>
    match sc.parseFloat lit with
    | some f => (f, none)
    | none => (cur, some (.unmarshalType (str "number " ++ lit)))
  | _ => (cur, kindError j)

/-- The elements of a JSON array into the elements of a slice: element `i` is decoded
into what the backing array `prior` holds at `i`, or into the zero value behind its end. -/
def decodeElems {α : Type} (dec : α → JSON → α × Option UnmarshalError) (zero : α) :
    List α → List JSON → List α × Option UnmarshalError
  | _, [] => ([], none)
  | prior, j :: js =>
    (((dec (prior.head?.getD zero) j).1 :: (decodeElems dec zero prior.tail js).1),
      firstError (dec (prior.head?.getD zero) j).2 (decodeElems dec zero prior.tail js).2)

/-- A slice field while it is decoded: the slice, and the elements of its backing array
behind its length. -/
structure SliceField (α : Type) where
  slice : Slice α
  spare : List α

/-- A JSON value into a slice field: `null` makes it nil, an empty array makes it a new
empty slice, an array is decoded element by element over the old backing array. -/
def decodeSlice {α : Type} (dec : α → JSON → α × Option UnmarshalError) (zero : α)
    (cur : SliceField α) (j : JSON) : SliceField α × Option UnmarshalError :=
  match j with
  | .null => ({ slice := none, spare := [] }, none)
  | .array [] => ({ slice := some [], spare := [] }, none)
  | .array js =>
    ({ slice := some (decodeElems dec zero (cur.slice.toList ++ cur.spare) js).1,
       spare := (cur.slice.toList ++ cur.spare).drop js.length },
     (decodeElems dec zero (cur.slice.toList ++ cur.spare) js).2)
  | _ => (cur, kindError j)

/-- One member of a JSON object into a `SymbolChange`. -/
def decodeSymbolChangeMember (sc : Strconv) (st : SymbolChange × Option UnmarshalError)
    (kv : GoString × JSON) : SymbolChange × Option UnmarshalError :=
  match fieldIndex [str "Symbol", str "UpdateTime", str "Price"] kv.1 with
  | some 0 =>
    ({ st.1 with Symbol := (decodeString st.1.Symbol kv.2).1 },
      firstError st.2 (decodeString st.1.Symbol kv.2).2)
  | some 1 =>
    ({ st.1 with UpdateTime := (decodeInt st.1.UpdateTime kv.2).1 },
      firstError st.2 (decodeInt st.1.UpdateTime kv.2).2)
  | some _ =>
    ({ st.1 with Price := (decodeFloat sc st.1.Price kv.2).1 },
      firstError st.2 (decodeFloat sc st.1.Price kv.2).2)
  | none => st

/-- A JSON value into a `SymbolChange` holding `cur`. -/
def decodeSymbolChange (sc : Strconv) (cur : SymbolChange) (j : JSON) :
    SymbolChange × Option UnmarshalError :=
  match j with
  | .object members => members.foldl (decodeSymbolChangeMember sc) (cur, none)
  | _ => (cur, kindError j)

/-- A message struct while it is decoded: the struct, and the spare elements of the
backing arrays of its slice field. -/
inductive Target where
  | tickerRequest (m : TickerRequest) (spare : List GoString)
  | tickerChange (m : TickerChange) (spare : List SymbolChange)
  | ping (m : Ping)
  | pong (m : Pong)

/-- The message of a decoding target. -/
def Target.message : Target → Message
  | .tickerRequest m _ => .tickerRequest m
  | .tickerChange m _ => .tickerChange m
  | .ping m => .ping m
  | .pong m => .pong m

/-- The zero value of `SymbolChange`. -/
def SymbolChange.zero : SymbolChange := { Symbol := [], UpdateTime := 0, Price := ⟨0⟩ }

/-- One member of a JSON object into a message struct. -/
def decodeMember (sc : Strconv) (st : Target × Option UnmarshalError) (kv : GoString × JSON) :
    Target × Option UnmarshalError :=
  match st.1 with
  | .tickerRequest m spare =>
    match fieldIndex [str "Id", str "Tickers"] kv.1 with
    | some 0 =>
      (.tickerRequest { m with Id := (decodeString m.Id kv.2).1 } spare,
        firstError st.2 (decodeString m.Id kv.2).2)
    | some _ =>
      (.tickerRequest
          { m with Tickers := (decodeSlice decodeString [] ⟨m.Tickers, spare⟩ kv.2).1.slice }
          (decodeSlice decodeString [] ⟨m.Tickers, spare⟩ kv.2).1.spare,
        firstError st.2 (decodeSlice decodeString [] ⟨m.Tickers, spare⟩ kv.2).2)
    | none => st
  | .tickerChange m spare =>
    match fieldIndex [str "Changes"] kv.1 with
    | some _ =>
      (.tickerChange
          { Changes := (decodeSlice (decodeSymbolChange sc) SymbolChange.zero
                          ⟨m.Changes, spare⟩ kv.2).1.slice }
          (decodeSlice (decodeSymbolChange sc) SymbolChange.zero ⟨m.Changes, spare⟩ kv.2).1.spare,
        firstError st.2
          (decodeSlice (decodeSymbolChange sc) SymbolChange.zero ⟨m.Changes, spare⟩ kv.2).2)
    | none => st
  | .ping m =>
    match fieldIndex [str "Sequence", str "Seconds", str "Nanos"] kv.1 with
    | some 0 =>
      (.ping { m with Sequence := (decodeInt m.Sequence kv.2).1 },
        firstError st.2 (decodeInt m.Sequence kv.2).2)
    | some 1 =>
      (.ping { m with Seconds := (decodeInt m.Seconds kv.2).1 },
        firstError st.2 (decodeInt m.Seconds kv.2).2)
    | some _ =>
      (.ping { m with Nanos := (decodeInt m.Nanos kv.2).1 },
        firstError st.2 (decodeInt m.Nanos kv.2).2)
    | none => st
  | .pong m =>
    match fieldIndex [str "Sequence", str "Seconds", str "Nanos"] kv.1 with
    | some 0 =>
      (.pong { m with Sequence := (decodeInt m.Sequence kv.2).1 },
        firstError st.2 (decodeInt m.Sequence kv.2).2)
    | some 1 =>
      (.pong { m with Seconds := (decodeInt m.Seconds kv.2).1 },
        firstError st.2 (decodeInt m.Seconds kv.2).2)
    | some _ =>
      (.pong { m with Nanos := (decodeInt m.Nanos kv.2).1 },
        firstError st.2 (decodeInt m.Nanos kv.2).2)
    | none => st

/-- A JSON value into a message struct. -/
def decodeMessage (sc : Strconv) (target : Target) (j : JSON) : Target × Option UnmarshalError :=
  match j with
  | .object members => members.foldl (decodeMember sc) (target, none)
  | _ => (target, kindError j)

/-- The target `Unmarshal` decodes into, for the struct `msg` points to. -/
def targetOf (msg : Message) : Target :=
  match msg with
  | .tickerRequest m => .tickerRequest m []
  | .tickerChange m => .tickerChange m []
  | .ping m => .ping m
  | .pong m => .pong m

/-- `json.Unmarshal(data, msg)` for a pointer `msg` to one of the four message structs:
the struct afterwards and the error. On a syntax error nothing is stored. -/
def Unmarshal (sc : Strconv) (data : GoString) (msg : Message) : Message × Option UnmarshalError :=
  match parseJSON data with
  | none => (msg, some .syntaxError)
  | some j => ((decodeMessage sc (targetOf msg) j).1.message, (decodeMessage sc (targetOf msg) j).2)

/-! ## protocol.go: the registry and Decode -/

/-- The type `messageConstructorFunc`: a function that makes a new, empty message
struct. -/
abbrev messageConstructorFunc := Unit → Message

/-- The type of the variable `registry`: a map from message names to constructors. -/
abbrev Registry := GoString → Option messageConstructorFunc

/-- `Register`: `registry[name] = f`. -/
def Register (registry : Registry) (name : GoString) (f : messageConstructorFunc) : Registry :=
  fun key => if key = name then some f else registry key

/-- The variable `registry` after `init` of `messages.go` has run on the empty map. -/
def registry : Registry :=
  Register
    (Register
      (Register
        (Register (fun _ => none) (str "TickerRequest")
          (fun _ => .tickerRequest { Id := [], Tickers := none }))
        (str "TickerChange") (fun _ => .tickerChange { Changes := none }))
      (str "Ping") (fun _ => .ping { Sequence := 0, Seconds := 0, Nanos := 0 }))
    (str "Pong") (fun _ => .pong { Sequence := 0, Seconds := 0, Nanos := 0 })

/-- The struct the constructor registered for `name` makes, `none` when there is no
constructor for `name`. -/
def construct (name : GoString) : Option Message :=
  match registry name with
  | some constructor => some (constructor ())
  | none => none

/-- The errors `Decode` returns. -/
inductive DecodeError where
  | lacksNamePrefix
  | unknownMessageName (name : GoString)
  | unmarshal (e : UnmarshalError)
deriving DecidableEq, Repr

/-- `bytes.IndexByte(b, c)`: the index of the first `c` in `b`. -/
def indexByte (b : GoString) (c : Nat) : Option Nat :=
  match b with
  | [] => none
  | x :: rest =>
    if x = c then some 0
    else
      match indexByte rest c with
      | some i => some (i + 1)
      | none => none

/-- `Decode`: the message and the error it returns. -/
def Decode (sc : Strconv) (b : GoString) : Option Message × Option DecodeError :=
  match indexByte b Sep with
  | none => (none, some .lacksNamePrefix)
  | some ix =>
    let name := b.take ix
    let payload := b.drop (ix + 1)
    match registry name with
    | none => (none, some (.unknownMessageName name))
    | some constructor =>
      let msg := constructor ()
      (some (Unmarshal sc payload msg).1,
        match (Unmarshal sc payload msg).2 with
        | some e => some (.unmarshal e)
        | none => none)

/-- The values of `strconv` on the floats 0, 1, 1.5 and 100, which are the prices of the
examples; `formatFloat` treats every other float like 0. -/
def exampleStrconv : Strconv :=
  { formatFloat := fun f =>
      if f.bits = 0x3FF0000000000000 then str "1"
      else if f.bits = 0x3FF8000000000000 then str "1.5"
      else if f.bits = 0x4059000000000000 then str "100"
      else str "0"
    parseFloat := fun s =>
      if s = str "0" then some ⟨0⟩
      else if s = str "1" then some ⟨0x3FF0000000000000⟩
      else if s = str "1.5" then some ⟨0x3FF8000000000000⟩
      else if s = str "100" then some ⟨0x4059000000000000⟩
      else none }

/-- The four names `init` registers. -/
def registeredNames : List GoString :=
  [str "TickerRequest", str "TickerChange", str "Ping", str "Pong"]

/-- A byte that is a decimal digit. -/
def isDigit (c : Nat) : Prop := 48 ≤ c ∧ c ≤ 57

/-- The input behind a value inside an array or object, or at the end of the text: it is
empty or starts with `,`, `]` or `}`. -/
def Terminated (rest : GoString) : Prop :=
  rest = [] ∨ ∃ r, rest = 44 :: r ∨ rest = 93 :: r ∨ rest = 125 :: r

/-- The range of `int` and `int64`. -/
def isInt64 (i : Int) : Prop := -2 ^ 63 ≤ i ∧ i < 2 ^ 63

/-- A number literal: the scanner reads all of it as one number. -/
def isNumberLit (lit : GoString) : Prop := scanNumber lit = some (lit, [])

/-- The text `bytes` of a JSON value is read back by `pv` as the value `v`, whatever
terminated input follows it; the text does not start with white space or `]`. -/
def Prints (pv : GoString → Option (JSON × GoString)) (bytes : GoString) (v : JSON) : Prop :=
  (∃ c tl, bytes = c :: tl ∧ isSpace c = false ∧ c ≠ 93) ∧
  ∀ rest, Terminated rest → pv (bytes ++ rest) = some (v, rest)

/-- A `SymbolChange` that JSON text carries unchanged: its symbol is valid UTF-8, its
update time is an `int64`, its price is finite, and `strconv` writes the price as a JSON
number that it reads back as the same `float64`. -/
def SymbolChange.wellFormed (sc : Strconv) (c : SymbolChange) : Prop :=
  c.Symbol.valid = true ∧ isInt64 c.UpdateTime ∧ c.Price.isFinite = true ∧
  isNumberLit (sc.formatFloat c.Price) ∧ sc.parseFloat (sc.formatFloat c.Price) = some c.Price

/-- A message that JSON text carries unchanged: its strings are valid UTF-8, its integers
are in the range of their Go type, and its changes are well formed. -/
def Message.wellFormed (sc : Strconv) : Message → Prop
  | .tickerRequest m => m.Id.valid = true ∧ ∀ t ∈ m.Tickers.toList, t.valid = true
  | .tickerChange m => ∀ c ∈ m.Changes.toList, c.wellFormed sc
  | .ping m => isInt64 m.Sequence ∧ isInt64 m.Seconds ∧ isInt64 m.Nanos
  | .pong m => isInt64 m.Sequence ∧ isInt64 m.Seconds ∧ isInt64 m.Nanos

/-- The JSON value of a `[]string` field. -/
def stringsValue (l : Slice GoString) : JSON :=
  match l with
  | none => .null
  | some ss => .array (ss.map JSON.string)

/-- The JSON value of a `SymbolChange`. -/
def changeValue (sc : Strconv) (c : SymbolChange) : JSON :=
  .object [(str "Symbol", .string c.Symbol), (str "UpdateTime", .number (formatInt c.UpdateTime)),
           (str "Price", .number (sc.formatFloat c.Price))]

/-- The JSON value of a `[]SymbolChange` field. -/
def changesValue (sc : Strconv) (l : Slice SymbolChange) : JSON :=
  match l with
  | none => .null
  | some cs => .array (cs.map (changeValue sc))

/-- The JSON value of a `Ping` or `Pong`. -/
def heartbeatValue (sequence seconds nanos : Int) : JSON :=
  .object [(str "Sequence", .number (formatInt sequence)),
           (str "Seconds", .number (formatInt seconds)),
           (str "Nanos", .number (formatInt nanos))]

/-- The JSON value of a message. -/
def messageValue (sc : Strconv) : Message → JSON
  | .tickerRequest m => .object [(str "Id", .string m.Id), (str "Tickers", stringsValue m.Tickers)]
  | .tickerChange m => .object [(str "Changes", changesValue sc m.Changes)]
  | .ping m => heartbeatValue m.Sequence m.Seconds m.Nanos
  | .pong m => heartbeatValue m.Sequence m.Seconds m.Nanos

/-- A `TickerRequest` whose `Id` is the single byte `0xFF`, which is not valid UTF-8. -/
def exampleBadId : Message := .tickerRequest { Id := [0xFF], Tickers := none }

/-- A `TickerChange` whose price is positive infinity. -/
def exampleInfPrice : Message :=
  .tickerChange { Changes := some [{ Symbol := str "X", UpdateTime := 5,
                                     Price := ⟨0x7FF0000000000000⟩ }] }

/-- A `TickerChange` for `X` at the price 1.5 and `Y` at the price 100. -/
def exampleChange : Message :=
  .tickerChange { Changes := some [{ Symbol := str "X", UpdateTime := 5,
                                     Price := ⟨0x3FF8000000000000⟩ },
                                   { Symbol := str "Y", UpdateTime := -1,
                                     Price := ⟨0x4059000000000000⟩ }] }

/-! ## Payloads that fit a message struct -/

/-- A JSON value fits a `string` field: it is a string or `null`. -/
def fitsString (j : JSON) : Bool :=
  match j with
  | .string _ => true
  | .null => true
  | _ => false

/-- A JSON value fits an `int` or `int64` field: it is `null`, or a number written as
an integer within the range of `int64`. -/
def fitsInt (j : JSON) : Bool :=
  match j with
  | .number lit => (parseInt64 lit).isSome
  | .null => true
  | _ => false

/-- A JSON value fits a `float64` field: it is `null`, or a number `strconv` reads. -/
def fitsFloat (sc : Strconv) (j : JSON) : Bool :=
  match j with
  | .number lit => (sc.parseFloat lit).isSome
  | .null => true
  | _ => false

/-- A JSON value fits a slice field: it is `null`, or an array whose elements fit the
element type. -/
def fitsSlice (fitsElem : JSON → Bool) (j : JSON) : Bool :=
  match j with
  | .array js => js.all fitsElem
  | .null => true
  | _ => false

/-- A member of a JSON object fits the struct `SymbolChange`: its key names no field, or
its value fits the field the key names. -/
def fitsChangeMember (sc : Strconv) (kv : GoString × JSON) : Bool :=
  match fieldIndex [str "Symbol", str "UpdateTime", str "Price"] kv.1 with
  | none => true
  | some 0 => fitsString kv.2
  | some 1 => fitsInt kv.2
  | some _ => fitsFloat sc kv.2

/-- A JSON value fits a `SymbolChange`: it is `null`, or an object whose members fit. -/
def fitsChange (sc : Strconv) (j : JSON) : Bool :=
  match j with
  | .object ms => ms.all (fitsChangeMember sc)
  | .null => true
  | _ => false

/-- A member of a JSON object fits a `Ping` or `Pong`. -/
def fitsHeartbeatMember (kv : GoString × JSON) : Bool :=
  match fieldIndex [str "Sequence", str "Seconds", str "Nanos"] kv.1 with
  | none => true
  | some _ => fitsInt kv.2

/-- A member of a JSON object fits a `TickerRequest`. -/
def fitsRequestMember (kv : GoString × JSON) : Bool :=
  match fieldIndex [str "Id", str "Tickers"] kv.1 with
  | none => true
  | some 0 => fitsString kv.2
  | some _ => fitsSlice fitsString kv.2

/-- A member of a JSON object fits a `TickerChange`. -/
def fitsTickerChangeMember (sc : Strconv) (kv : GoString × JSON) : Bool :=
  match fieldIndex [str "Changes"] kv.1 with
  | none => true
  | some _ => fitsSlice (fitsChange sc) kv.2

/-- A member of a JSON object fits the struct of the message `msg`: its key names no
field of the struct (exactly or up to case), or its value fits the field it names. -/
def fitsMember (sc : Strconv) (msg : Message) (kv : GoString × JSON) : Bool :=
  match msg with
  | .tickerRequest _ => fitsRequestMember kv
  | .tickerChange _ => fitsTickerChangeMember sc kv
  | .ping _ => fitsHeartbeatMember kv
  | .pong _ => fitsHeartbeatMember kv

/-- A JSON value fits the struct of the message `msg`: it is `null`, or an object all of
whose members fit. -/
def fitsMessage (sc : Strconv) (msg : Message) (j : JSON) : Bool :=
  match j with
  | .object ms => ms.all (fitsMember sc msg)
  | .null => true
  | _ => false

/-- A payload that fits the struct of the message `msg`: it is the text of one JSON
value, and the value fits the struct. -/
def validPayload (sc : Strconv) (msg : Message) (payload : GoString) : Bool :=
  match parseJSON payload with
  | none => false
  | some j => fitsMessage sc msg j

/-- The decoding target is a struct of the same type as the message `msg`. -/
def Target.sameStruct (t : Target) (msg : Message) : Bool :=
  match t, msg with
  | .tickerRequest _ _, .tickerRequest _ => true
  | .tickerChange _ _, .tickerChange _ => true
  | .ping _, .ping _ => true
  | .pong _, .pong _ => true
  | _, _ => false

/-! ## Auxiliary definitions of the properties -/

/-- How often the interest list `ts` names the symbol `s`. -/
def occurrences (s : GoString) (ts : List GoString) : Nat :=
  (ts.filter (fun ct => decide (s = ct))).length

/-- A changed ticker `X`. -/
def exampleX : Ticker := { Symbol := str "X", UpdateTime := Time.zero, Price := ⟨0⟩ }

/-- The delivery `Notifier.Notify` starts for one client, if any. -/
def deliveryFor (changed : List Ticker) (client : Client) : Option Delivery :=
  if (matchTickers changed client.tickers).length > 0 then
    some { client := client, tickers := matchTickers changed client.tickers }
  else none

/-- Three registered clients: A watches `X` and `Y`, B watches `Z`, W watches `W`. -/
def exampleNotifier : Notifier :=
  { clients :=
      [ { ptr := 1, id := str "A", generation := 0, tickers := some [str "X", str "Y"], conn := 1 },
        { ptr := 2, id := str "B", generation := 0, tickers := some [str "Z"], conn := 2 },
        { ptr := 3, id := str "W", generation := 0, tickers := some [str "W"], conn := 3 } ] }

/-! # Properties -/

/-! ## Fan-out: the tickers computed for one client -/

theorem occurrences_cons (s t : GoString) (ts : List GoString) :
    occurrences s (t :: ts) = (if s = t then 1 else 0) + occurrences s ts := by
  unfold occurrences
  by_cases h : s = t
  · simp [List.filter_cons, h]
    omega
  · simp [List.filter_cons, h]

theorem occurrences_eq_zero {s : GoString} {ts : List GoString} (h : s ∉ ts) :
    occurrences s ts = 0 := by
  unfold occurrences
  rw [List.length_eq_zero, List.filter_eq_nil_iff]
  intro a ha
  simp only [decide_eq_true_eq]
  intro e
  exact h (e ▸ ha)

theorem occurrences_pos {s : GoString} {ts : List GoString} (h : s ∈ ts) :
    0 < occurrences s ts := by
  unfold occurrences
  apply List.length_pos_of_mem (a := s)
  simp [List.mem_filter, h]

theorem occurrences_nodup {s : GoString} {ts : List GoString} (hn : ts.Nodup) (h : s ∈ ts) :
    occurrences s ts = 1 := by
  induction ts with
  | nil => simp at h
  | cons t ts ih =>
    rw [occurrences_cons]
    rw [List.nodup_cons] at hn
    by_cases e : s = t
    · subst e
      simp [occurrences_eq_zero hn.1]
    · have hm : s ∈ ts := by
        rcases List.mem_cons.mp h with h1 | h1
        · exact absurd h1 e
        · exact h1
      simp [e, ih hn.2 hm]

theorem matchClientTickers_eq (ch : Ticker) (ts : List GoString) (acc : List Ticker) :
    matchClientTickers ch ts acc = acc ++ List.replicate (occurrences ch.Symbol ts) ch := by
  induction ts generalizing acc with
  | nil => simp [matchClientTickers, occurrences]
  | cons t ts ih =>
    have ih2 := ih
    unfold matchClientTickers at ih2 ⊢
    rw [List.foldl_cons, ih2, occurrences_cons]
    by_cases h : ch.Symbol = t
    · simp [h, Nat.add_comm 1, List.replicate_succ]
    · simp [h]

theorem matchTickers_foldl (changed : List Ticker) (ts : List GoString) (acc : List Ticker) :
    changed.foldl (fun acc ch => matchClientTickers ch ts acc) acc
      = acc ++ changed.flatMap (fun ch => List.replicate (occurrences ch.Symbol ts) ch) := by
  induction changed generalizing acc with
  | nil => simp
  | cons c cs ih =>
    rw [List.foldl_cons, ih, matchClientTickers_eq]
    simp [List.flatMap_cons]

theorem matchTickers_eq (changed : List Ticker) (ts : Slice GoString) :
    matchTickers changed ts
      = changed.flatMap (fun ch => List.replicate (occurrences ch.Symbol ts.toList) ch) := by
  unfold matchTickers
  rw [matchTickers_foldl]
  simp

theorem flatMap_replicate_nodup (changed : List Ticker) (ts : List GoString) (h : ts.Nodup) :
    changed.flatMap (fun ch => List.replicate (occurrences ch.Symbol ts) ch)
      = changed.filter (fun ch => decide (ch.Symbol ∈ ts)) := by
  induction changed with
  | nil => simp
  | cons c cs ih =>
    rw [List.flatMap_cons, ih]
    by_cases hm : c.Symbol ∈ ts
    · simp [List.filter_cons, hm, occurrences_nodup h hm]
    · simp [List.filter_cons, hm, occurrences_eq_zero hm]

theorem matchTickers_ne_nil_iff (changed : List Ticker) (ts : Slice GoString) :
    matchTickers changed ts ≠ [] ↔ ∃ t ∈ changed, t.Symbol ∈ ts.toList := by
  rw [matchTickers_eq]
  constructor
  · intro h
    obtain ⟨x, hx⟩ := List.exists_mem_of_ne_nil _ h
    rw [List.mem_flatMap] at hx
    obtain ⟨a, ha, hxa⟩ := hx
    refine ⟨a, ha, ?_⟩
    by_contra hn
    simp [occurrences_eq_zero hn] at hxa
  · rintro ⟨t, ht, hs⟩ hnil
    have : t ∈ changed.flatMap (fun ch => List.replicate (occurrences ch.Symbol ts.toList) ch) := by
      rw [List.mem_flatMap]
      refine ⟨t, ht, ?_⟩
      rw [List.mem_replicate]
      exact ⟨by have := occurrences_pos hs; omega, rfl⟩
    rw [hnil] at this
    simp at this

/-- **C3, counterexample.** For the interest list `["X", "X"]` and `changed = [X]` the
code computes `[X, X]`: the changed ticker appears twice, not exactly once, so the
computed list is not the sub-list of `changed` selected by the interest list. -/
theorem C3_counterexample :
    matchTickers [exampleX] (some [str "X", str "X"]) = [exampleX, exampleX] ∧
    matchTickers [exampleX] (some [str "X", str "X"])
      ≠ [exampleX].filter (fun t => decide (t.Symbol ∈ [str "X", str "X"])) := by
  decide

/-- **C3, amended.** The list `Notifier.Notify` computes for a client lists the changed
tickers in the order of `changed`, each one once per occurrence of its symbol in the
client's interest list (so not at all when the symbol is outside the list); when the
interest list names no symbol twice this is exactly the sub-list of `changed` whose
symbol is in the interest list. -/
theorem C3_matchTickers (changed : List Ticker) (tickers : Slice GoString) :
    matchTickers changed tickers
        = changed.flatMap (fun ch => List.replicate (occurrences ch.Symbol tickers.toList) ch) ∧
    (tickers.toList.Nodup →
      matchTickers changed tickers
        = changed.filter (fun ch => decide (ch.Symbol ∈ tickers.toList))) := by
  refine ⟨matchTickers_eq changed tickers, fun h => ?_⟩
  rw [matchTickers_eq, flatMap_replicate_nodup _ _ h]

/-- Witness for `C3_matchTickers` at the interest list `["X", "Y"]`. -/
theorem C3_matchTickers_witness :
    [str "X", str "Y"].Nodup ∧
    matchTickers [exampleX] (some [str "X", str "Y"])
      = [exampleX].filter (fun ch => decide (ch.Symbol ∈ [str "X", str "Y"])) :=
  ⟨by decide, (C3_matchTickers [exampleX] (some [str "X", str "Y"])).2 (by decide)⟩

/-! ## Fan-out: who is sent a delivery -/

theorem notify_foldl (changed : List Ticker) (cs : List Client) (acc : List Delivery) :
    cs.foldl
      (fun started client =>
        let tickers := matchTickers changed client.tickers
        if tickers.length > 0 then started ++ [{ client := client, tickers := tickers }]
        else started)
      acc
      = acc ++ cs.filterMap (deliveryFor changed) := by
  induction cs generalizing acc with
  | nil => simp
  | cons c cs ih =>
    rw [List.foldl_cons, ih, List.filterMap_cons]
    by_cases h : (matchTickers changed c.tickers).length > 0
    · simp [deliveryFor, h]
    · simp [deliveryFor, h]

theorem notify_eq (NF : Notifier) (changed : List Ticker) :
    NF.Notify changed = NF.clients.filterMap (deliveryFor changed) := by
  unfold Notifier.Notify
  rw [notify_foldl]
  simp

theorem deliveryFor_isSome (changed : List Ticker) (c : Client) :
    (deliveryFor changed c).isSome = true ↔ ∃ t ∈ changed, t.Symbol ∈ c.tickers.toList := by
  rw [← matchTickers_ne_nil_iff]
  unfold deliveryFor
  by_cases h : (matchTickers changed c.tickers).length > 0
  · simp [h]
    exact List.ne_nil_of_length_pos h
  · simp [h]
    have : (matchTickers changed c.tickers).length = 0 := by omega
    exact List.length_eq_zero.mp this

theorem deliveryFor_client {changed : List Ticker} {c : Client} {d : Delivery}
    (h : deliveryFor changed c = some d) : d.client = c := by
  unfold deliveryFor at h
  split at h
  · simp at h; rw [← h]
  · simp at h

theorem deliveries_to (changed : List Ticker) (cs : List Client) (c : Client)
    (hn : (cs.map Client.ptr).Nodup) (hc : c ∈ cs) :
    ((cs.filterMap (deliveryFor changed)).filter
        (fun d => decide (d.client.ptr = c.ptr))).length
      = if (deliveryFor changed c).isSome then 1 else 0 := by
  induction cs with
  | nil => simp at hc
  | cons x xs ih =>
    rw [List.map_cons, List.nodup_cons] at hn
    have none_of : ∀ (ys : List Client), c.ptr ∉ ys.map Client.ptr →
        (ys.filterMap (deliveryFor changed)).filter
          (fun d => decide (d.client.ptr = c.ptr)) = [] := by
      intro ys hy
      rw [List.filter_eq_nil_iff]
      intro d hd
      rw [List.mem_filterMap] at hd
      obtain ⟨y, hy1, hy2⟩ := hd
      have := deliveryFor_client hy2
      simp only [decide_eq_true_eq]
      intro e
      apply hy
      rw [List.mem_map]
      exact ⟨y, hy1, by rw [← e, this]⟩
    rcases List.mem_cons.mp hc with e | hm
    · subst e
      rw [List.filterMap_cons]
      cases hd : deliveryFor changed c with
      | none => simp [none_of xs hn.1]
      | some d =>
        have hdc := deliveryFor_client hd
        simp [List.filter_cons, hdc, none_of xs hn.1]
    · have hne : x.ptr ≠ c.ptr := by
        intro e
        apply hn.1
        rw [e, List.mem_map]
        exact ⟨c, hm, rfl⟩
      rw [List.filterMap_cons]
      cases hd : deliveryFor changed x with
      | none => simpa using ih hn.2 hm
      | some d =>
        have hdc := deliveryFor_client hd
        simp only [List.filter_cons, hdc, hne, decide_False, Bool.false_eq_true, if_false]
        exact ih hn.2 hm

/-- **C4.** `Notifier.Notify` starts deliveries for registered clients only, and for a
registered client it starts exactly one delivery when some changed ticker has its symbol
in the client's interest list and none otherwise; so a client with an empty interest
list gets none, and nobody gets one when `changed` is empty. -/
theorem C4_notify_recipients (NF : Notifier) (changed : List Ticker)
    (hmap : (NF.clients.map Client.ptr).Nodup) :
    (∀ d ∈ NF.Notify changed, d.client ∈ NF.clients) ∧
    (∀ c ∈ NF.clients,
      ((NF.Notify changed).filter (fun d => decide (d.client.ptr = c.ptr))).length
        = if ∃ t ∈ changed, t.Symbol ∈ c.tickers.toList then 1 else 0) ∧
    (∀ c ∈ NF.clients,
      (∃ d ∈ NF.Notify changed, d.client = c) ↔ ∃ t ∈ changed, t.Symbol ∈ c.tickers.toList) ∧
    (∀ c ∈ NF.clients, c.tickers.toList = [] → ∀ d ∈ NF.Notify changed, d.client ≠ c) ∧
    (changed = [] → NF.Notify changed = []) := by
  have key : ∀ c ∈ NF.clients,
      (∃ d ∈ NF.Notify changed, d.client = c) ↔ ∃ t ∈ changed, t.Symbol ∈ c.tickers.toList := by
    intro c hc
    rw [← deliveryFor_isSome, notify_eq]
    constructor
    · rintro ⟨d, hd, e⟩
      rw [List.mem_filterMap] at hd
      obtain ⟨y, _, hy2⟩ := hd
      have := deliveryFor_client hy2
      rw [e] at this
      rw [this, hy2]
      rfl
    · intro h
      obtain ⟨d, hd⟩ := Option.isSome_iff_exists.mp h
      exact ⟨d, List.mem_filterMap.mpr ⟨c, hc, hd⟩, deliveryFor_client hd⟩
  refine ⟨?_, ?_, key, ?_, ?_⟩
  · intro d hd
    rw [notify_eq, List.mem_filterMap] at hd
    obtain ⟨y, hy1, hy2⟩ := hd
    rw [deliveryFor_client hy2]
    exact hy1
  · intro c hc
    rw [notify_eq, deliveries_to changed NF.clients c hmap hc]
    by_cases h : ∃ t ∈ changed, t.Symbol ∈ c.tickers.toList
    · rw [if_pos h, if_pos ((deliveryFor_isSome changed c).mpr h)]
    · rw [if_neg h, if_neg (fun h2 => h ((deliveryFor_isSome changed c).mp h2))]
  · intro c hc hempty d hd e
    have := (key c hc).mp ⟨d, hd, e⟩
    rw [hempty] at this
    simp at this
  · intro h
    subst h
    rw [notify_eq, List.filterMap_eq_nil_iff]
    intro c _
    simp [deliveryFor, matchTickers]

/-- Witness for `C4_notify_recipients`: sessions A, B and W and the change set
`[X]`. -/
theorem C4_notify_recipients_witness :
    (exampleNotifier.clients.map Client.ptr).Nodup ∧
    (∀ d ∈ exampleNotifier.Notify [exampleX], d.client ∈ exampleNotifier.clients) :=
  ⟨by decide, (C4_notify_recipients exampleNotifier [exampleX] (by decide)).1⟩

/-! ## runClient: unexpected messages -/

/-- **C5 (the code at the failing input).** A `Pong` or a `TickerChange` read without
error does not end the receive loop: the `break` of the `default` case leaves the
`switch` only, so the loop goes on with the next input in the same session, and the
client stays registered. -/
theorem C5_unexpected_message_continues (conn : Nat) (s : Session) (w : Option GoError)
    (rest : List Input) :
    (∀ p : Pong, runLoop conn s ({ read := .msg (.pong p), writeErr := w } :: rest)
      = ((runLoop conn s rest).1, Event.read (.msg (.pong p)) :: (runLoop conn s rest).2.1,
          (runLoop conn s rest).2.2)) ∧
    (∀ c : TickerChange,
      runLoop conn s ({ read := .msg (.tickerChange c), writeErr := w } :: rest)
      = ((runLoop conn s rest).1, Event.read (.msg (.tickerChange c)) :: (runLoop conn s rest).2.1,
          (runLoop conn s rest).2.2)) := by
  constructor <;> intro m <;> simp [runLoop, dispatch]

/-- The failing input of C5, evaluated: the frames `Pong:{"Sequence":1,...}` and
`Ping:{"Sequence":4,...}` decode to a `Pong` and a `Ping`; after the `Pong` the server
still reads the next frame, the `Ping`, and answers it; `runClient` has not returned. -/
theorem C5_pong_then_ping :
    Decode exampleStrconv (str "Pong:\x7b\"Sequence\":1,\"Seconds\":2,\"Nanos\":3\x7d")
      = (some (.pong ⟨1, 2, 3⟩), none) ∧
    Decode exampleStrconv (str "Ping:\x7b\"Sequence\":4,\"Seconds\":5,\"Nanos\":6\x7d")
      = (some (.ping ⟨4, 5, 6⟩), none) ∧
    (runClient { clients := [] } emptyDB 7 0
        [{ read := .msg (.pong ⟨1, 2, 3⟩), writeErr := none },
         { read := .msg (.ping ⟨4, 5, 6⟩), writeErr := none }]).returned = false ∧
    readCount (runClient { clients := [] } emptyDB 7 0
        [{ read := .msg (.pong ⟨1, 2, 3⟩), writeErr := none },
         { read := .msg (.ping ⟨4, 5, 6⟩), writeErr := none }]).trace = 2 ∧
    writes (runClient { clients := [] } emptyDB 7 0
        [{ read := .msg (.pong ⟨1, 2, 3⟩), writeErr := none },
         { read := .msg (.ping ⟨4, 5, 6⟩), writeErr := none }]).trace
      = [(7, .pong ⟨4, 5, 6⟩)] := by
  decide

/-! ## runClient: heartbeat echo -/

theorem runLoop_trace (conn : Nat) (s : Session) (inputs : List Input) :
    (runLoop conn s inputs).2.1 = echoTrace conn inputs := by
  induction inputs generalizing s with
  | nil => rfl
  | cons inp rest ih =>
    unfold runLoop echoTrace
    cases hr : inp.read with
    | err e => rfl
    | msg m =>
      cases m with
      | tickerRequest r => simp [dispatch, ih]
      | tickerChange c => simp [dispatch, ih]
      | ping p => cases hw : inp.writeErr <;> simp [dispatch, ih, pongOf]
      | pong p => simp [dispatch, ih]

/-- **C6.** The actions of `runClient` on its connection are exactly those of the
heartbeat contract: every `Ping` read is followed, before the next read, by one write
of a `Pong` carrying the same `Sequence`, `Seconds` and `Nanos`, and nothing else is
written. -/
theorem C6_heartbeat_echo (NF : Notifier) (DB : Database) (conn nextPtr : Nat)
    (inputs : List Input) :
    (runClient NF DB conn nextPtr inputs).trace = echoTrace conn inputs ∧
    (∀ (s : Session) (msg : Ping) (w : Option GoError),
      (dispatch conn s (.ping msg) w).2
        = [Event.write conn
            (.pong { Sequence := msg.Sequence, Seconds := msg.Seconds, Nanos := msg.Nanos })]) := by
  constructor
  · have h := runLoop_trace conn
      { NF := NF, DB := DB, client := none, cid := str "", nextPtr := nextPtr } inputs
    unfold runClient
    rw [← h]
    split
    rename_i s trace left heq
    split <;> simp [heq]
  · intro s msg w
    cases w <;> rfl

/-! ## client.go: which context pingPong cancels -/

/-- **C10 (the code at the failing input).** After a successful dial and first write,
`askServer` hands `pingPong` the connection context as `parentCtx` but the cancel
function of the *dial* context as `parentCancel` (`go pingPong(connCtx, cancel, conn)`,
not `connCancel`). When `pingPong` returns after a write error, the dial context is
cancelled; the connection context and a read context derived from it are not. Had it
been handed `connCancel`, the connection context would be done. -/
theorem C10_pingPong_cancels_dial_context :
    askServer none none = .inr exampleAskServer ∧
    exampleAskServer.call.parentCtx = exampleAskServer.connCtx ∧
    exampleAskServer.call.parentCancel = exampleAskServer.cancel ∧
    exampleAskServer.call.parentCancel ≠ exampleAskServer.connCancel ∧
    (pingPong exampleAskServer.ctxs exampleAskServer.call [exampleFailedTick]).2.2 = true ∧
    (pingPong exampleAskServer.ctxs exampleAskServer.call [exampleFailedTick]).1.done
      exampleAskServer.dialCtx = true ∧
    (pingPong exampleAskServer.ctxs exampleAskServer.call [exampleFailedTick]).1.done
      exampleAskServer.connCtx = false ∧
    (readContext (pingPong exampleAskServer.ctxs exampleAskServer.call [exampleFailedTick]).1
        exampleAskServer).1.done
      (readContext (pingPong exampleAskServer.ctxs exampleAskServer.call [exampleFailedTick]).1
        exampleAskServer).2 = false ∧
    (pingPong exampleAskServer.ctxs
        { parentCtx := exampleAskServer.connCtx, parentCancel := exampleAskServer.connCancel }
        [exampleFailedTick]).1.done exampleAskServer.connCtx = true := by
  decide

/-- Whenever `pingPong` returns in `askServer`, whatever the timer firings were, the
connection context is not done afterwards. -/
theorem pingPong_leaves_connCtx (ticks : List Tick) :
    (pingPong exampleAskServer.ctxs exampleAskServer.call ticks).1.done
      exampleAskServer.connCtx = false := by
  unfold pingPong
  split
  · show (exampleAskServer.ctxs.cancel exampleAskServer.call.parentCancel).done
      exampleAskServer.connCtx = false
    decide
  · show exampleAskServer.ctxs.done exampleAskServer.connCtx = false
    decide

/-! ## runClient: registration of the connection's client -/

theorem filter_fresh (others : List Client) (c : Client) (h : ∀ x ∈ others, x.ptr < c.ptr) :
    (others ++ [c]).filter (fun x => decide (x.ptr ≠ c.ptr)) = others := by
  rw [List.filter_append]
  have h1 : others.filter (fun x => decide (x.ptr ≠ c.ptr)) = others := by
    rw [List.filter_eq_self]
    intro x hx
    have := h x hx
    simp only [decide_eq_true_eq]
    omega
  rw [h1]
  simp

theorem add_fresh (others : List Client) (c : Client) (h : ∀ x ∈ others, x.ptr < c.ptr) :
    Notifier.Add { clients := others } c = { clients := others ++ [c] } := by
  unfold Notifier.Add
  have : c.ptr ∉ List.map Client.ptr others := by
    intro hm
    rw [List.mem_map] at hm
    obtain ⟨x, hx, e⟩ := hm
    have := h x hx
    omega
  simp [this]

theorem delete_current (conn : Nat) (others : List Client) (s : Session)
    (h : SessionInv conn others s) : s.NF.Delete s.client = { clients := others } := by
  obtain ⟨_, h2⟩ := h
  rcases h2 with ⟨hc, hl⟩ | ⟨c, hc, _, _, hlt, hl⟩
  · rw [hc]
    cases hs : s.NF
    simp [Notifier.Delete]
    rw [hs] at hl
    exact hl
  · rw [hc]
    simp only [Notifier.Delete, hl, filter_fresh others c hlt]

theorem dispatch_request (conn : Nat) (others : List Client) (s : Session)
    (msg : TickerRequest) (w : Option GoError) (h : SessionInv conn others s) :
    (dispatch conn s (.tickerRequest msg) w).1.client = some (clientOf conn s.nextPtr msg) ∧
    (dispatch conn s (.tickerRequest msg) w).1.NF.clients
      = others ++ [clientOf conn s.nextPtr msg] ∧
    (dispatch conn s (.tickerRequest msg) w).1.nextPtr = s.nextPtr + 1 := by
  have hd := delete_current conn others s h
  have hfresh : ∀ x ∈ others, x.ptr < (clientOf conn s.nextPtr msg).ptr := h.1
  have ha := add_fresh others (clientOf conn s.nextPtr msg) hfresh
  refine ⟨rfl, ?_, rfl⟩
  show (Notifier.Add (s.NF.Delete s.client) (clientOf conn s.nextPtr msg)).clients = _
  rw [hd]
  exact congrArg Notifier.clients ha

theorem dispatch_inv (conn : Nat) (others : List Client) (s : Session) (m : Message)
    (w : Option GoError) (h : SessionInv conn others s) :
    SessionInv conn others (dispatch conn s m w).1 := by
  cases m with
  | tickerRequest msg =>
    obtain ⟨h1, h2, h3⟩ := dispatch_request conn others s msg w h
    refine ⟨?_, Or.inr ⟨clientOf conn s.nextPtr msg, h1, ?_, rfl, h.1, h2⟩⟩
    · intro x hx
      have := h.1 x hx
      rw [h3]
      omega
    · rw [h3]
      simp [clientOf]
  | tickerChange c => exact h
  | ping p => cases w <;> exact h
  | pong p => exact h

theorem runLoop_inv (conn : Nat) (others : List Client) (s : Session) (inputs : List Input)
    (h : SessionInv conn others s) : SessionInv conn others (runLoop conn s inputs).1 := by
  induction inputs generalizing s with
  | nil => exact h
  | cons inp rest ih =>
    unfold runLoop
    cases hr : inp.read with
    | err e => exact h
    | msg m => exact ih _ (dispatch_inv conn others s m inp.writeErr h)

theorem runLoop_left (conn : Nat) (s : Session) (inputs : List Input) :
    (runLoop conn s inputs).2.2 = true ↔ ∃ inp ∈ inputs, ∃ e, inp.read = .err e := by
  induction inputs generalizing s with
  | nil => simp [runLoop]
  | cons inp rest ih =>
    unfold runLoop
    cases hr : inp.read with
    | err e => simp [hr]
    | msg m => simp [hr, ih]

theorem runLoop_no_request (conn : Nat) (s : Session) (inputs : List Input)
    (h : ∀ inp ∈ inputs, ∀ r, inp.read ≠ .msg (.tickerRequest r)) :
    (runLoop conn s inputs).1.client = s.client ∧ (runLoop conn s inputs).1.NF = s.NF := by
  induction inputs generalizing s with
  | nil => exact ⟨rfl, rfl⟩
  | cons inp rest ih =>
    have hrest : ∀ i ∈ rest, ∀ r, i.read ≠ .msg (.tickerRequest r) :=
      fun i hi => h i (List.mem_cons_of_mem _ hi)
    unfold runLoop
    cases hr : inp.read with
    | err e => exact ⟨rfl, rfl⟩
    | msg m =>
      cases m with
      | tickerRequest r => exact absurd hr (h inp (List.mem_cons_self _ _) r)
      | tickerChange c => exact ih s hrest
      | ping p => cases hw : inp.writeErr <;> exact ih s hrest
      | pong p => exact ih s hrest

theorem runClient_fields (NF : Notifier) (DB : Database) (conn nextPtr : Nat)
    (inputs : List Input) :
    (runClient NF DB conn nextPtr inputs).returned
        = (runLoop conn ⟨NF, DB, none, str "", nextPtr⟩ inputs).2.2 ∧
    (runClient NF DB conn nextPtr inputs).client
        = (runLoop conn ⟨NF, DB, none, str "", nextPtr⟩ inputs).1.client ∧
    (runClient NF DB conn nextPtr inputs).NF
        = (if (runLoop conn ⟨NF, DB, none, str "", nextPtr⟩ inputs).2.2 then
            (runLoop conn ⟨NF, DB, none, str "", nextPtr⟩ inputs).1.NF.Delete
              (runLoop conn ⟨NF, DB, none, str "", nextPtr⟩ inputs).1.client
          else (runLoop conn ⟨NF, DB, none, str "", nextPtr⟩ inputs).1.NF) := by
  unfold runClient
  split
  rename_i s trace left heq
  rw [heq]
  cases left <;> simp

theorem initial_inv (NF : Notifier) (DB : Database) (conn nextPtr : Nat)
    (hfresh : ∀ x ∈ NF.clients, x.ptr < nextPtr) :
    SessionInv conn NF.clients ⟨NF, DB, none, str "", nextPtr⟩ :=
  ⟨hfresh, Or.inl ⟨rfl, rfl⟩⟩

/-- **C9.** When the receive loop ends (some read fails), `runClient` returns and leaves
the notifier exactly as it found it: the connection's last client is not registered any
more, every registered client was allocated before `runClient` started (so none that it
created for the connection remains), and every client of another connection is still
registered. When no `TickerRequest` was received, `client` is still nil at the final
`Delete`, which changes nothing. -/
theorem C9_cleanup_on_termination (NF : Notifier) (DB : Database) (conn nextPtr : Nat)
    (inputs : List Input)
    (hfresh : ∀ x ∈ NF.clients, x.ptr < nextPtr)
    (hends : ∃ inp ∈ inputs, ∃ e, inp.read = .err e) :
    (runClient NF DB conn nextPtr inputs).returned = true ∧
    (runClient NF DB conn nextPtr inputs).NF = NF ∧
    (∀ c, (runClient NF DB conn nextPtr inputs).client = some c →
      c.conn = conn ∧ c ∉ (runClient NF DB conn nextPtr inputs).NF.clients) ∧
    (∀ x ∈ NF.clients, x ∈ (runClient NF DB conn nextPtr inputs).NF.clients) ∧
    (∀ x ∈ (runClient NF DB conn nextPtr inputs).NF.clients, x.ptr < nextPtr) ∧
    ((∀ inp ∈ inputs, ∀ r, inp.read ≠ .msg (.tickerRequest r)) →
      (runClient NF DB conn nextPtr inputs).client = none ∧
      NF.Delete (runClient NF DB conn nextPtr inputs).client = NF) := by
  obtain ⟨hret, hcl, hnf⟩ := runClient_fields NF DB conn nextPtr inputs
  have hleft := (runLoop_left conn ⟨NF, DB, none, str "", nextPtr⟩ inputs).mpr hends
  have hinv := runLoop_inv conn NF.clients _ inputs (initial_inv NF DB conn nextPtr hfresh)
  have hNF : (runClient NF DB conn nextPtr inputs).NF = NF := by
    rw [hnf, hleft, if_pos rfl, delete_current conn NF.clients _ hinv]
  refine ⟨by rw [hret, hleft], hNF, ?_, ?_, ?_, ?_⟩
  · intro c hc
    rw [hcl] at hc
    rcases hinv.2 with ⟨hn, _⟩ | ⟨c2, hc2, _, hconn, hlt, _⟩
    · rw [hn] at hc; cases hc
    · rw [hc2] at hc
      cases hc
      refine ⟨hconn, ?_⟩
      rw [hNF]
      intro hm
      have := hlt _ hm
      omega
  · intro x hx
    rw [hNF]
    exact hx
  · intro x hx
    rw [hNF] at hx
    exact hfresh x hx
  · intro hno
    have := (runLoop_no_request conn ⟨NF, DB, none, str "", nextPtr⟩ inputs hno).1
    rw [hcl, this]
    exact ⟨rfl, rfl⟩

/-- Witness for `C9_cleanup_on_termination`: a subscription, then a failed read. -/
theorem C9_cleanup_on_termination_witness :
    (runClient exampleNotifier emptyDB 9 4
      [{ read := .msg (.tickerRequest ⟨str "C", some [str "X"]⟩), writeErr := none },
       { read := .err (str "timeout"), writeErr := none }]).NF = exampleNotifier :=
  (C9_cleanup_on_termination exampleNotifier emptyDB 9 4
      [{ read := .msg (.tickerRequest ⟨str "C", some [str "X"]⟩), writeErr := none },
       { read := .err (str "timeout"), writeErr := none }]
      (by decide) ⟨_, List.mem_cons_of_mem _ (List.mem_cons_self _ _), str "timeout", rfl⟩).2.1

theorem runLoop_cons_msg (conn : Nat) (s : Session) (m : Message) (w : Option GoError)
    (rest : List Input) :
    runLoop conn s ({ read := .msg m, writeErr := w } :: rest)
      = ((runLoop conn (dispatch conn s m w).1 rest).1,
         Event.read (.msg m) :: (dispatch conn s m w).2
           ++ (runLoop conn (dispatch conn s m w).1 rest).2.1,
         (runLoop conn (dispatch conn s m w).1 rest).2.2) := by
  simp only [runLoop]

theorem requestInputs_cons (r : TickerRequest) (rs : List TickerRequest) :
    requestInputs (r :: rs)
      = { read := .msg (.tickerRequest r), writeErr := none } :: requestInputs rs := rfl

theorem runLoop_requests (conn : Nat) (others : List Client) (s : Session)
    (reqs : List TickerRequest) (last : TickerRequest) (h : SessionInv conn others s) :
    (runLoop conn s (requestInputs (reqs ++ [last]))).2.2 = false ∧
    (runLoop conn s (requestInputs (reqs ++ [last]))).1.client
      = some (clientOf conn (s.nextPtr + reqs.length) last) ∧
    (runLoop conn s (requestInputs (reqs ++ [last]))).1.NF.clients
      = others ++ [clientOf conn (s.nextPtr + reqs.length) last] := by
  induction reqs generalizing s with
  | nil =>
    obtain ⟨h1, h2, _⟩ := dispatch_request conn others s last none h
    rw [List.nil_append, requestInputs_cons, runLoop_cons_msg]
    exact ⟨rfl, h1, h2⟩
  | cons r rs ih =>
    obtain ⟨_, _, h3⟩ := dispatch_request conn others s r none h
    have hinv := dispatch_inv conn others s (.tickerRequest r) none h
    obtain ⟨i1, i2, i3⟩ := ih _ hinv
    rw [h3] at i2 i3
    have e : s.nextPtr + (r :: rs).length = s.nextPtr + 1 + rs.length := by
      simp only [List.length_cons]; omega
    rw [e, List.cons_append, requestInputs_cons, runLoop_cons_msg]
    exact ⟨i1, i2, i3⟩

theorem no_delivery_of_no_match (changed : List Ticker) (c : Client)
    (h : ∀ t ∈ changed, t.Symbol ∉ c.tickers.toList) : deliveryFor changed c = none := by
  have h1 : ¬ ((deliveryFor changed c).isSome = true) := by
    rw [deliveryFor_isSome]
    rintro ⟨t, ht, hs⟩
    exact h t ht hs
  cases hd : deliveryFor changed c with
  | none => rfl
  | some d => rw [hd] at h1; simp at h1

/-- **C7.** After a non-empty run of `TickerRequest` messages on one connection, started
with no client of that connection registered, the loop is waiting for the next frame
and the notifier holds the clients it held before, unchanged, plus exactly one client of
the connection, whose id and tickers are those of the last request. A later `Notify`
whose changed tickers are all outside the last request's tickers starts no delivery on
the connection; in particular after `[X]` then `[Y]` with `X ≠ Y`, a change of `X` only
starts none. -/
theorem C7_replace_on_resubscribe (NF : Notifier) (DB : Database) (conn nextPtr : Nat)
    (reqs : List TickerRequest) (last : TickerRequest)
    (hfresh : ∀ x ∈ NF.clients, x.ptr < nextPtr)
    (hnone : ∀ x ∈ NF.clients, x.conn ≠ conn) :
    (runClient NF DB conn nextPtr (requestInputs (reqs ++ [last]))).returned = false ∧
    (∃ c : Client, c.id = last.Id ∧ c.tickers = last.Tickers ∧ c.conn = conn ∧
      (runClient NF DB conn nextPtr (requestInputs (reqs ++ [last]))).client = some c ∧
      (runClient NF DB conn nextPtr (requestInputs (reqs ++ [last]))).NF.clients
        = NF.clients ++ [c] ∧
      (runClient NF DB conn nextPtr (requestInputs (reqs ++ [last]))).NF.clients.filter
        (fun x => decide (x.conn = conn)) = [c] ∧
      (runClient NF DB conn nextPtr (requestInputs (reqs ++ [last]))).NF.clients.filter
        (fun x => decide (x.conn ≠ conn)) = NF.clients) ∧
    (∀ changed : List Ticker, (∀ t ∈ changed, t.Symbol ∉ last.Tickers.toList) →
      ∀ d ∈ (runClient NF DB conn nextPtr (requestInputs (reqs ++ [last]))).NF.Notify changed,
        d.client.conn ≠ conn) ∧
    (∀ (X Y : GoString) (first : TickerRequest) (changed : List Ticker),
      reqs = [first] → first.Tickers = some [X] → last.Tickers = some [Y] → X ≠ Y →
      (∀ t ∈ changed, t.Symbol = X) →
      ∀ d ∈ (runClient NF DB conn nextPtr (requestInputs (reqs ++ [last]))).NF.Notify changed,
        d.client.conn ≠ conn) := by
  obtain ⟨hret, hcl, hnf⟩ := runClient_fields NF DB conn nextPtr (requestInputs (reqs ++ [last]))
  obtain ⟨l1, l2, l3⟩ := runLoop_requests conn NF.clients ⟨NF, DB, none, str "", nextPtr⟩
    reqs last (initial_inv NF DB conn nextPtr hfresh)
  rw [l1] at hret hnf
  simp only [Bool.false_eq_true, if_false] at hnf
  rw [l2] at hcl
  have hclients : (runClient NF DB conn nextPtr (requestInputs (reqs ++ [last]))).NF.clients
      = NF.clients ++ [clientOf conn (nextPtr + reqs.length) last] := by
    rw [hnf, l3]
  have hgen : ∀ changed : List Ticker, (∀ t ∈ changed, t.Symbol ∉ last.Tickers.toList) →
      ∀ d ∈ (runClient NF DB conn nextPtr (requestInputs (reqs ++ [last]))).NF.Notify changed,
        d.client.conn ≠ conn := by
    intro changed hch d hd
    rw [notify_eq, hclients, List.filterMap_append, List.mem_append] at hd
    rcases hd with hd | hd
    · rw [List.mem_filterMap] at hd
      obtain ⟨x, hx, hdx⟩ := hd
      rw [deliveryFor_client hdx]
      exact hnone x hx
    · have := no_delivery_of_no_match changed (clientOf conn (nextPtr + reqs.length) last) hch
      simp [this] at hd
  refine ⟨hret, ⟨clientOf conn (nextPtr + reqs.length) last, rfl, rfl, rfl, hcl, hclients,
    ?_, ?_⟩, hgen, ?_⟩
  · rw [hclients, List.filter_append]
    have : NF.clients.filter (fun x => decide (x.conn = conn)) = [] := by
      rw [List.filter_eq_nil_iff]
      intro x hx
      simpa using hnone x hx
    rw [this]
    simp [clientOf]
  · rw [hclients, List.filter_append]
    have : NF.clients.filter (fun x => decide (x.conn ≠ conn)) = NF.clients := by
      rw [List.filter_eq_self]
      intro x hx
      simpa using hnone x hx
    rw [this]
    simp [clientOf]
  · intro X Y first changed _ _ hY hXY hX
    apply hgen changed
    intro t ht hm
    rw [hY] at hm
    simp only [Slice.toList, List.mem_singleton] at hm
    exact hXY ((hX t ht).symm.trans hm)

/-- Witness for `C7_replace_on_resubscribe`: on connection 9, requests for `[X]` then
`[Y]` next to the sessions A, B and W; a change of `X` reaches nobody on connection 9. -/
theorem C7_replace_on_resubscribe_witness :
    ((runClient exampleNotifier emptyDB 9 4
        (requestInputs ([⟨str "C", some [str "X"]⟩] ++ [⟨str "C", some [str "Y"]⟩]))).NF.Notify
      [exampleX]).all (fun d => decide (d.client.conn ≠ 9)) = true :=
  List.all_eq_true.mpr (fun d hd => decide_eq_true
    ((C7_replace_on_resubscribe exampleNotifier emptyDB 9 4 [⟨str "C", some [str "X"]⟩]
        ⟨str "C", some [str "Y"]⟩ (by decide) (by decide)).2.2.2
      (str "X") (str "Y") ⟨str "C", some [str "X"]⟩ [exampleX] rfl rfl rfl (by decide)
      (by decide) d hd))

/-! ## runClient: upsert on subscribe -/

theorem firstIndex_lt {name : GoString} {ts : List GoString} (h : name ∈ ts) :
    firstIndex name ts < ts.length := by
  induction ts with
  | nil => simp at h
  | cons t ts ih =>
    unfold firstIndex
    by_cases e : name = t
    · simp [e]
    · rcases List.mem_cons.mp h with h1 | h1
      · exact absurd h1 e
      · have := ih h1
        simp [e]
        exact this

theorem wrapInt64_sq (ix : Nat) (h : ix < 3037000500) :
    wrapInt64 ((ix : Int) * (ix : Int)) = (ix : Int) * (ix : Int) := by
  have h1 : ix * ix ≤ 3037000499 * 3037000499 := Nat.mul_le_mul (by omega) (by omega)
  have h2 : ((ix * ix : Nat) : Int) ≤ 9223372030926249001 := by exact_mod_cast h1
  have h3 : (0 : Int) ≤ ((ix * ix : Nat) : Int) := Int.ofNat_nonneg _
  rw [Nat.cast_mul] at h2 h3
  unfold wrapInt64
  generalize (ix : Int) * (ix : Int) = v at h2 h3 ⊢
  norm_num
  omega

theorem add_data (DB : Database) (symbol : GoString) (price : Float64) (name : GoString) :
    (DB.Add symbol price).data name
      = match DB.data name with
        | some t => some t
        | none =>
          if name = symbol then some { Symbol := symbol, UpdateTime := Time.zero, Price := price }
          else none := by
  unfold Database.Add
  cases hs : DB.data symbol with
  | some t0 =>
    cases hn : DB.data name with
    | some t => simp [hn]
    | none =>
      by_cases e : name = symbol
      · rw [e, hs] at hn; cases hn
      · simp [hn, e]
  | none =>
    by_cases e : name = symbol
    · subst e; simp [hs]
    · cases hn : DB.data name <;> simp [e, hn]

theorem addTickers_data (DB : Database) (ix : Nat) (ts : List GoString) (name : GoString) :
    (addTickers DB ix ts).data name
      = match DB.data name with
        | some t => some t
        | none =>
          if name ∈ ts then
            some { Symbol := name, UpdateTime := Time.zero,
                   Price := Float64.ofInt (wrapInt64 (((ix + firstIndex name ts : Nat) : Int)
                              * ((ix + firstIndex name ts : Nat) : Int))) }
          else none := by
  induction ts generalizing DB ix with
  | nil => cases h : DB.data name <;> simp [addTickers, h]
  | cons t ts ih =>
    unfold addTickers
    rw [ih, add_data]
    cases hn : DB.data name with
    | some tk => rfl
    | none =>
      by_cases e : name = t
      · subst e
        simp [firstIndex]
      · have e2 : ix + 1 + firstIndex name ts = ix + (firstIndex name ts + 1) := by omega
        simp [e, firstIndex, e2]

/-- **C8.** After `runClient` has processed a `TickerRequest` with tickers `ts`, every
name of `ts` is a key of the database; a name already present keeps its ticker; a name
that was absent now maps to a ticker with that symbol, the zero update time and the
price `float64(ix*ix)` for the index `ix` of its first occurrence in `ts` (the product
taken in Go's 64-bit `int`, which is the exact square for every list of at most
3037000500 names); every other key is unchanged. -/
theorem C8_upsert_on_subscribe (conn : Nat) (s : Session) (msg : TickerRequest)
    (w : Option GoError) :
    (∀ name ∈ msg.Tickers.toList,
      ((dispatch conn s (.tickerRequest msg) w).1.DB.data name).isSome = true) ∧
    (∀ name t, s.DB.data name = some t →
      (dispatch conn s (.tickerRequest msg) w).1.DB.data name = some t) ∧
    (∀ name ∈ msg.Tickers.toList, s.DB.data name = none →
      (dispatch conn s (.tickerRequest msg) w).1.DB.data name
        = some { Symbol := name, UpdateTime := Time.zero,
                 Price := Float64.ofInt (wrapInt64
                   ((firstIndex name msg.Tickers.toList : Int)
                     * (firstIndex name msg.Tickers.toList : Int))) }) ∧
    (msg.Tickers.toList.length ≤ 3037000500 →
      ∀ name ∈ msg.Tickers.toList, s.DB.data name = none →
        (dispatch conn s (.tickerRequest msg) w).1.DB.data name
          = some (seedTicker name (firstIndex name msg.Tickers.toList))) ∧
    (∀ name, name ∉ msg.Tickers.toList →
      (dispatch conn s (.tickerRequest msg) w).1.DB.data name = s.DB.data name) := by
  have hdb : ∀ name, (dispatch conn s (.tickerRequest msg) w).1.DB.data name
      = match s.DB.data name with
        | some t => some t
        | none =>
          if name ∈ msg.Tickers.toList then
            some { Symbol := name, UpdateTime := Time.zero,
                   Price := Float64.ofInt (wrapInt64
                     (((0 + firstIndex name msg.Tickers.toList : Nat) : Int)
                       * ((0 + firstIndex name msg.Tickers.toList : Nat) : Int))) }
          else none := by
    intro name
    exact addTickers_data s.DB 0 msg.Tickers.toList name
  refine ⟨?_, ?_, ?_, ?_, ?_⟩
  · intro name hm
    rw [hdb]
    cases hn : s.DB.data name <;> simp [hm]
  · intro name t ht
    rw [hdb, ht]
  · intro name hm hn
    rw [hdb, hn]
    simp only [hm, if_true, Nat.zero_add]
  · intro hlen name hm hn
    rw [hdb, hn]
    have hlt := firstIndex_lt hm
    simp only [hm, if_true, Nat.zero_add, seedTicker]
    rw [wrapInt64_sq _ (by omega)]
  · intro name hm
    rw [hdb]
    cases hn : s.DB.data name <;> simp [hm]

/-- An instance of `C8_upsert_on_subscribe`: a request for `["X", "Y", "X"]` on the
empty database inserts `Y` with the price `float64(1)`. -/
theorem C8_upsert_on_subscribe_witness :
    (dispatch 9 ⟨exampleNotifier, emptyDB, none, str "", 4⟩
        (.tickerRequest ⟨str "C", some [str "X", str "Y", str "X"]⟩) none).1.DB.data (str "Y")
      = some (seedTicker (str "Y") 1) :=
  (C8_upsert_on_subscribe 9 ⟨exampleNotifier, emptyDB, none, str "", 4⟩
      ⟨str "C", some [str "X", str "Y", str "X"]⟩ none).2.2.2.1 (by decide)
    (str "Y") (by decide) rfl

theorem float64_ofInt_examples :
    Float64.ofInt 1 = ⟨0x3FF0000000000000⟩ ∧ Float64.ofInt 4 = ⟨0x4010000000000000⟩ ∧
    Float64.ofInt (-3) = ⟨0xC008000000000000⟩ ∧
    Float64.ofInt 9007199254740993 = ⟨0x4340000000000000⟩ ∧
    Float64.ofInt 9223372036854775807 = ⟨0x43E0000000000000⟩ := by
  decide

/-! ## Decode: the three ways it fails -/

theorem indexByte_none {b : GoString} {c : Nat} (h : c ∉ b) : indexByte b c = none := by
  induction b with
  | nil => rfl
  | cons x rest ih =>
    rw [List.mem_cons, not_or] at h
    unfold indexByte
    rw [if_neg (fun e => h.1 e.symm), ih h.2]

theorem indexByte_first (pre post : GoString) (c : Nat) (h : c ∉ pre) :
    indexByte (pre ++ c :: post) c = some pre.length := by
  induction pre with
  | nil => simp [indexByte]
  | cons x rest ih =>
    rw [List.mem_cons, not_or] at h
    rw [List.cons_append]
    unfold indexByte
    rw [if_neg (fun e => h.1 e.symm), ih h.2]
    rfl

theorem registry_eq_none {name : GoString} (h : name ∉ registeredNames) :
    construct name = none := by
  simp only [registeredNames, List.mem_cons, List.mem_singleton, not_or, List.not_mem_nil,
    or_false] at h
  simp only [construct, registry, Register, if_neg h.1, if_neg h.2.1, if_neg h.2.2.1,
    if_neg h.2.2.2]

theorem registry_of_mem {name : GoString} (h : name ∈ registeredNames) :
    ∃ zero, construct name = some zero ∧ zero.Name = name := by
  simp only [registeredNames, List.mem_cons, List.mem_singleton, List.not_mem_nil,
    or_false] at h
  rcases h with h | h | h | h <;> subst h
  · exact ⟨.tickerRequest { Id := [], Tickers := none }, by decide, rfl⟩
  · exact ⟨.tickerChange { Changes := none }, by decide, rfl⟩
  · exact ⟨.ping { Sequence := 0, Seconds := 0, Nanos := 0 }, by decide, rfl⟩
  · exact ⟨.pong { Sequence := 0, Seconds := 0, Nanos := 0 }, by decide, rfl⟩

theorem decode_split (sc : Strconv) (pre post : GoString) (h : Sep ∉ pre) :
    Decode sc (pre ++ Sep :: post)
      = match construct pre with
        | none => (none, some (.unknownMessageName pre))
        | some msg =>
          (some (Unmarshal sc post msg).1,
            match (Unmarshal sc post msg).2 with
            | some e => some (.unmarshal e)
            | none => none) := by
  unfold Decode construct
  rw [indexByte_first pre post Sep h]
  simp only [List.take_left', List.drop_left', List.drop_succ_cons, List.take_append_eq_append_take,
    List.take_length, Nat.sub_self, List.take_zero, List.append_nil]
  have hd : List.drop (pre.length + 1) (pre ++ Sep :: post) = post := by
    rw [List.drop_append_eq_append_drop]
    simp
  rw [hd]
  cases registry pre <;> rfl

theorem targetOf_message (msg : Message) : (targetOf msg).message = msg := by
  cases msg <;> rfl

theorem unmarshal_malformed (sc : Strconv) (data : GoString) (msg : Message)
    (h : parseJSON data = none) : Unmarshal sc data msg = (msg, some .syntaxError) := by
  unfold Unmarshal
  rw [h]

theorem unmarshal_kind (sc : Strconv) (data : GoString) (msg : Message) (j : JSON)
    (h : parseJSON data = some j) (hj : ∀ ms, j ≠ .object ms) :
    Unmarshal sc data msg = (msg, kindError j) := by
  unfold Unmarshal
  rw [h]
  cases j with
  | object ms => exact absurd rfl (hj ms)
  | null => simp only [decodeMessage, targetOf_message]
  | bool b => simp only [decodeMessage, targetOf_message]
  | number l => simp only [decodeMessage, targetOf_message]
  | string s => simp only [decodeMessage, targetOf_message]
  | array l => simp only [decodeMessage, targetOf_message]


/-! ## Decode: which payloads Unmarshal accepts -/

theorem firstError_eq_none (a b : Option UnmarshalError) :
    firstError a b = none ↔ a = none ∧ b = none := by
  cases a <;> simp [firstError]

theorem decodeString_none (cur : GoString) (j : JSON) :
    (decodeString cur j).2 = none ↔ fitsString j = true := by
  cases j <;> simp [decodeString, kindError, fitsString]

theorem decodeInt_none (cur : Int) (j : JSON) :
    (decodeInt cur j).2 = none ↔ fitsInt j = true := by
  cases j with
  | number lit => cases h : parseInt64 lit <;> simp [decodeInt, fitsInt, h]
  | _ => simp [decodeInt, kindError, fitsInt]

theorem decodeFloat_none (sc : Strconv) (cur : Float64) (j : JSON) :
    (decodeFloat sc cur j).2 = none ↔ fitsFloat sc j = true := by
  cases j with
  | number lit => cases h : sc.parseFloat lit <;> simp [decodeFloat, fitsFloat, h]
  | _ => simp [decodeFloat, kindError, fitsFloat]

theorem decodeElems_none {α : Type} (dec : α → JSON → α × Option UnmarshalError) (zero : α)
    (fits : JSON → Bool) (h : ∀ cur j, (dec cur j).2 = none ↔ fits j = true) :
    ∀ (js : List JSON) (prior : List α),
      (decodeElems dec zero prior js).2 = none ↔ js.all fits = true := by
  intro js
  induction js with
  | nil => intro prior; simp [decodeElems]
  | cons j rest ih =>
    intro prior
    simp only [decodeElems, firstError_eq_none, h, ih, List.all_cons, Bool.and_eq_true]

theorem decodeSlice_none {α : Type} (dec : α → JSON → α × Option UnmarshalError) (zero : α)
    (fits : JSON → Bool) (h : ∀ cur j, (dec cur j).2 = none ↔ fits j = true)
    (cur : SliceField α) (j : JSON) :
    (decodeSlice dec zero cur j).2 = none ↔ fitsSlice fits j = true := by
  cases j with
  | array js =>
    cases js with
    | nil => simp [decodeSlice, fitsSlice]
    | cons x rest =>
      simp only [decodeSlice, fitsSlice]
      exact decodeElems_none dec zero fits h (x :: rest) _
  | _ => simp [decodeSlice, kindError, fitsSlice]

theorem foldl_none {σ κ : Type}
    (step : σ × Option UnmarshalError → κ → σ × Option UnmarshalError) (fit : κ → Bool)
    (I : σ → Prop) (hI : ∀ st kv, I st.1 → I (step st kv).1)
    (h : ∀ st kv, I st.1 → ((step st kv).2 = none ↔ st.2 = none ∧ fit kv = true)) :
    ∀ (ms : List κ) (st : σ × Option UnmarshalError), I st.1 →
      ((ms.foldl step st).2 = none ↔ st.2 = none ∧ ms.all fit = true) := by
  intro ms
  induction ms with
  | nil => intro st _; simp
  | cons kv rest ih =>
    intro st hst
    rw [List.foldl_cons, ih (step st kv) (hI st kv hst), h st kv hst]
    simp only [List.all_cons, Bool.and_eq_true, and_assoc]

theorem decodeSymbolChangeMember_none (sc : Strconv) (st : SymbolChange × Option UnmarshalError)
    (kv : GoString × JSON) :
    (decodeSymbolChangeMember sc st kv).2 = none ↔ st.2 = none ∧ fitsChangeMember sc kv = true := by
  unfold decodeSymbolChangeMember fitsChangeMember
  cases hk : fieldIndex [str "Symbol", str "UpdateTime", str "Price"] kv.1 with
  | none => simp
  | some i =>
    rcases i with _ | _ | i
    · simp [firstError_eq_none, decodeString_none]
    · simp [firstError_eq_none, decodeInt_none]
    · simp [firstError_eq_none, decodeFloat_none]

theorem decodeSymbolChange_none (sc : Strconv) (cur : SymbolChange) (j : JSON) :
    (decodeSymbolChange sc cur j).2 = none ↔ fitsChange sc j = true := by
  cases j with
  | object ms =>
    simp only [decodeSymbolChange, fitsChange]
    have := foldl_none (decodeSymbolChangeMember sc) (fitsChangeMember sc) (fun _ => True)
      (fun _ _ _ => trivial) (fun st kv _ => decodeSymbolChangeMember_none sc st kv) ms (cur, none)
      trivial
    simpa using this
  | _ => simp [decodeSymbolChange, kindError, fitsChange]

theorem decodeMember_sameStruct (sc : Strconv) (msg : Message)
    (st : Target × Option UnmarshalError) (kv : GoString × JSON)
    (h : st.1.sameStruct msg = true) : (decodeMember sc st kv).1.sameStruct msg = true := by
  obtain ⟨t, e⟩ := st
  cases t with
  | tickerRequest m spare =>
    cases msg <;> simp [Target.sameStruct] at h
    unfold decodeMember
    cases hk : fieldIndex [str "Id", str "Tickers"] kv.1 with
    | none => rfl
    | some i => rcases i with _ | i <;> rfl
  | tickerChange m spare =>
    cases msg <;> simp [Target.sameStruct] at h
    unfold decodeMember
    cases hk : fieldIndex [str "Changes"] kv.1 <;> rfl
  | ping m =>
    cases msg <;> simp [Target.sameStruct] at h
    unfold decodeMember
    cases hk : fieldIndex [str "Sequence", str "Seconds", str "Nanos"] kv.1 with
    | none => rfl
    | some i => rcases i with _ | _ | i <;> rfl
  | pong m =>
    cases msg <;> simp [Target.sameStruct] at h
    unfold decodeMember
    cases hk : fieldIndex [str "Sequence", str "Seconds", str "Nanos"] kv.1 with
    | none => rfl
    | some i => rcases i with _ | _ | i <;> rfl

theorem decodeMember_none (sc : Strconv) (msg : Message)
    (st : Target × Option UnmarshalError) (kv : GoString × JSON)
    (h : st.1.sameStruct msg = true) :
    (decodeMember sc st kv).2 = none ↔ st.2 = none ∧ fitsMember sc msg kv = true := by
  obtain ⟨t, e⟩ := st
  cases t with
  | tickerRequest m spare =>
    cases msg <;> simp [Target.sameStruct] at h
    unfold decodeMember fitsMember fitsRequestMember
    cases hk : fieldIndex [str "Id", str "Tickers"] kv.1 with
    | none => simp
    | some i =>
      rcases i with _ | i
      · simp [firstError_eq_none, decodeString_none]
      · simp [firstError_eq_none, decodeSlice_none decodeString [] fitsString decodeString_none]
  | tickerChange m spare =>
    cases msg <;> simp [Target.sameStruct] at h
    unfold decodeMember fitsMember fitsTickerChangeMember
    cases hk : fieldIndex [str "Changes"] kv.1 with
    | none => simp
    | some i =>
      simp [firstError_eq_none, decodeSlice_none (decodeSymbolChange sc) SymbolChange.zero
        (fitsChange sc) (decodeSymbolChange_none sc)]
  | ping m =>
    cases msg <;> simp [Target.sameStruct] at h
    unfold decodeMember fitsMember fitsHeartbeatMember
    cases hk : fieldIndex [str "Sequence", str "Seconds", str "Nanos"] kv.1 with
    | none => simp
    | some i =>
      rcases i with _ | _ | i <;> simp [firstError_eq_none, decodeInt_none]
  | pong m =>
    cases msg <;> simp [Target.sameStruct] at h
    unfold decodeMember fitsMember fitsHeartbeatMember
    cases hk : fieldIndex [str "Sequence", str "Seconds", str "Nanos"] kv.1 with
    | none => simp
    | some i =>
      rcases i with _ | _ | i <;> simp [firstError_eq_none, decodeInt_none]

theorem targetOf_sameStruct (msg : Message) : (targetOf msg).sameStruct msg = true := by
  cases msg <;> rfl

theorem decodeMessage_none (sc : Strconv) (msg : Message) (j : JSON) :
    (decodeMessage sc (targetOf msg) j).2 = none ↔ fitsMessage sc msg j = true := by
  cases j with
  | object ms =>
    simp only [decodeMessage, fitsMessage]
    have := foldl_none (decodeMember sc) (fitsMember sc msg)
      (fun t => t.sameStruct msg = true)
      (fun st kv h => decodeMember_sameStruct sc msg st kv h)
      (fun st kv h => decodeMember_none sc msg st kv h) ms (targetOf msg, none)
      (targetOf_sameStruct msg)
    simpa using this
  | _ => simp [decodeMessage, kindError, fitsMessage]

/-- `json.Unmarshal` reports no error exactly for the payloads that fit the struct. -/
theorem unmarshal_none_iff (sc : Strconv) (msg : Message) (payload : GoString) :
    (Unmarshal sc payload msg).2 = none ↔ validPayload sc msg payload = true := by
  unfold Unmarshal validPayload
  cases parseJSON payload with
  | none => simp
  | some j => exact decodeMessage_none sc msg j

/-- **C2, counterexample.** Under a registered name, payloads that are not a payload of
that variant are accepted without error: `Ping:null`, and the `TickerRequest` payload
`{"Id":"x","Tickers":["a"]}` under the names `Ping` and `TickerChange`, all decode to
the new, empty struct with no error. -/
theorem C2_counterexample :
    Decode exampleStrconv (str "Ping:null")
      = (some (.ping { Sequence := 0, Seconds := 0, Nanos := 0 }), none) ∧
    Decode exampleStrconv (str "Ping:\x7b\"Id\":\"x\",\"Tickers\":[\"a\"]\x7d")
      = (some (.ping { Sequence := 0, Seconds := 0, Nanos := 0 }), none) ∧
    Decode exampleStrconv (str "TickerChange:\x7b\"Id\":\"x\",\"Tickers\":[\"a\"]\x7d")
      = (some (.tickerChange { Changes := none }), none) := by
  decide

/-- **C2, amended.** For every byte string `b`: without a `:` byte `Decode` returns the
missing-name-prefix error and no message; with a `:` whose preceding bytes (up to the
first `:`) are not a registered name it returns the unknown-message-name error and no
message; when they are a registered name it hands the bytes behind the first `:` to
`json.Unmarshal` on a new struct of that name and returns that struct with exactly the
error of `json.Unmarshal`. There is an error exactly when the payload does not fit the
struct: it is not the text of one JSON value (a syntax error), or the value is an array,
string, number or boolean, or it is an object with a member whose key names a field of
the struct and whose value does not fit the field. The payload `null`, members whose
key names no field, and `null` values are accepted without error. Only the first `:`
counts: the bytes behind it are arbitrary. -/
theorem C2_decode_errors (sc : Strconv) (b : GoString) :
    (Sep ∉ b → Decode sc b = (none, some .lacksNamePrefix)) ∧
    (∀ pre post : GoString, b = pre ++ Sep :: post → Sep ∉ pre →
      (pre ∉ registeredNames → Decode sc b = (none, some (.unknownMessageName pre))) ∧
      (pre ∈ registeredNames →
        ∃ zero, construct pre = some zero ∧ zero.Name = pre ∧
          (Decode sc b).1 = some (Unmarshal sc post zero).1 ∧
          (∀ e, (Unmarshal sc post zero).2 = some e → (Decode sc b).2 = some (.unmarshal e)) ∧
          ((Unmarshal sc post zero).2 = none → (Decode sc b).2 = none) ∧
          (parseJSON post = none → Decode sc b = (some zero, some (.unmarshal .syntaxError))) ∧
          (∀ j, parseJSON post = some j → (∀ ms, j ≠ .object ms) → ∀ e, kindError j = some e →
            Decode sc b = (some zero, some (.unmarshal e))) ∧
          ((Decode sc b).2 = none ↔ validPayload sc zero post = true) ∧
          (validPayload sc zero post = false → ∃ e, (Decode sc b).2 = some (.unmarshal e)))) := by
  constructor
  · intro h
    unfold Decode
    rw [indexByte_none h]
  · intro pre post hb hpre
    subst hb
    rw [decode_split sc pre post hpre]
    constructor
    · intro hn
      rw [registry_eq_none hn]
    · intro hm
      obtain ⟨zero, hz, hname⟩ := registry_of_mem hm
      have hiff := unmarshal_none_iff sc zero post
      refine ⟨zero, hz, hname, ?_, ?_, ?_, ?_, ?_, ?_, ?_⟩
      · rw [hz]
      · intro e he
        rw [hz]
        simp only [he]
      · intro he
        rw [hz]
        simp only [he]
      · intro hp
        rw [hz]
        simp only [unmarshal_malformed sc post zero hp]
      · intro j hp hj e he
        rw [hz]
        simp only [unmarshal_kind sc post zero j hp hj, he]
      · rw [hz, ← hiff]
        cases he : (Unmarshal sc post zero).2 <;> simp [he]
      · intro hv
        rw [hz]
        cases he : (Unmarshal sc post zero).2 with
        | none =>
          have := hiff.mp he
          rw [hv] at this
          cases this
        | some e => exact ⟨e, by simp only [he]⟩

/-- An instance of `C2_decode_errors`: the frame `Ping:{"Sequence":"s:1"}` has a
registered name, a `:` inside its payload, and a payload whose string does not fit the
`int` field. -/
theorem C2_decode_errors_witness :
    Sep ∉ str "Ping" ∧
    (Decode exampleStrconv (str "Ping" ++ Sep :: str "\x7b\"Sequence\":\"s:1\"\x7d")).2
      = some (.unmarshal (.unmarshalType (str "string"))) := by
  refine ⟨by decide, ?_⟩
  obtain ⟨zero, hz, _, _, herr, _, _, _, _, _⟩ :=
    ((C2_decode_errors exampleStrconv (str "Ping" ++ Sep :: str "\x7b\"Sequence\":\"s:1\"\x7d")).2
      (str "Ping") (str "\x7b\"Sequence\":\"s:1\"\x7d") rfl (by decide)).2 (by decide)
  have hzero : zero = .ping { Sequence := 0, Seconds := 0, Nanos := 0 } := by
    have : construct (str "Ping") = some (.ping { Sequence := 0, Seconds := 0, Nanos := 0 }) := by
      decide
    rw [this] at hz
    exact (Option.some.inj hz).symm
  subst hzero
  exact herr _ (by decide)

/-! ## Round trip: integers and number literals -/

theorem digitsValue_append (acc : Nat) (d1 d2 : GoString) :
    digitsValue acc (d1 ++ d2)
      = match digitsValue acc d1 with
        | some a => digitsValue a d2
        | none => none := by
  induction d1 generalizing acc with
  | nil => rfl
  | cons c d ih =>
    simp only [List.cons_append, digitsValue]
    split
    · exact ih _
    · rfl

theorem decDigits_value (fuel n : Nat) (h : n < 10 ^ fuel) :
    digitsValue 0 (decDigits fuel n) = some n := by
  induction fuel generalizing n with
  | zero => simp at h; subst h; rfl
  | succ f ih =>
    unfold decDigits
    by_cases h10 : n < 10
    · rw [if_pos h10]
      simp [digitsValue]
      omega
    · rw [if_neg h10, digitsValue_append, ih (n / 10) (by rw [pow_succ] at h; omega)]
      simp [digitsValue]
      omega

theorem decDigits_digits (fuel n : Nat) : ∀ c ∈ decDigits fuel n, isDigit c := by
  induction fuel generalizing n with
  | zero => simp [decDigits]
  | succ f ih =>
    unfold decDigits
    by_cases h10 : n < 10
    · rw [if_pos h10]
      intro c hc
      simp at hc
      unfold isDigit
      omega
    · rw [if_neg h10]
      intro c hc
      rw [List.mem_append] at hc
      rcases hc with hc | hc
      · exact ih _ c hc
      · simp at hc
        unfold isDigit
        omega

theorem decDigits_head (fuel n : Nat) (h1 : 1 ≤ n) (h : n < 10 ^ fuel) :
    ∃ c tl, decDigits fuel n = c :: tl ∧ 49 ≤ c ∧ c ≤ 57 := by
  induction fuel generalizing n with
  | zero => simp at h; omega
  | succ f ih =>
    unfold decDigits
    by_cases h10 : n < 10
    · rw [if_pos h10]
      exact ⟨48 + n, [], rfl, by omega, by omega⟩
    · rw [if_neg h10]
      obtain ⟨c, tl, e, hc⟩ := ih (n / 10) (by omega) (by rw [pow_succ] at h; omega)
      rw [e]
      exact ⟨c, tl ++ [48 + n % 10], rfl, hc⟩

theorem numScan_int_digits (ds : GoString) (h : ∀ c ∈ ds, isDigit c) :
    numScan .int ds = some (ds, []) := by
  induction ds with
  | nil => rfl
  | cons c tl ih =>
    have hc : 48 ≤ c ∧ c ≤ 57 := h c (List.mem_cons_self _ _)
    have : NumState.step .int c = some .int := by simp [NumState.step, hc]
    simp only [numScan, this, ih (fun x hx => h x (List.mem_cons_of_mem _ hx)), prepend,
      List.singleton_append]

theorem numScan_decDigits (st : NumState) (hst : st = .start ∨ st = .neg) (n : Nat)
    (h : n < 10 ^ 20) : numScan st (decDigits 20 n) = some (decDigits 20 n, []) := by
  by_cases h0 : n = 0
  · subst h0
    rcases hst with e | e <;> subst e <;> decide
  · obtain ⟨c, tl, e, hc1, hc2⟩ := decDigits_head 20 n (by omega) h
    have hd := decDigits_digits 20 n
    rw [e] at hd ⊢
    have htl := numScan_int_digits tl (fun x hx => hd x (List.mem_cons_of_mem _ hx))
    have hstep : st.step c = some .int := by
      rcases hst with e | e <;> subst e <;>
        simp [NumState.step, show c ≠ 45 by omega, show c ≠ 48 by omega, hc2] <;> omega
    simp only [numScan, hstep, htl, prepend, List.singleton_append]

theorem natAbs_lt_of_isInt64 {i : Int} (h : isInt64 i) : i.natAbs < 10 ^ 20 := by
  unfold isInt64 at h
  have : (2 : Int) ^ 63 = 9223372036854775808 := by norm_num
  rw [this] at h
  have : (10 : Nat) ^ 20 = 100000000000000000000 := by norm_num
  rw [this]
  omega

theorem formatInt_isNumberLit (i : Int) (h : isInt64 i) : isNumberLit (formatInt i) := by
  have hn := natAbs_lt_of_isInt64 h
  unfold isNumberLit scanNumber formatInt
  by_cases hneg : i < 0
  · rw [if_pos hneg]
    have hstep : NumState.step .start 45 = some .neg := by decide
    simp only [numScan, hstep, numScan_decDigits .neg (Or.inr rfl) _ hn, prepend,
      List.singleton_append]
  · rw [if_neg hneg]
    exact numScan_decDigits .start (Or.inl rfl) _ hn

theorem parseInt64_formatInt (i : Int) (h : isInt64 i) : parseInt64 (formatInt i) = some i := by
  have hn := natAbs_lt_of_isInt64 h
  have hv := decDigits_value 20 i.natAbs hn
  unfold isInt64 at h
  have h63 : (2 : Int) ^ 63 = 9223372036854775808 := by norm_num
  have h63n : (2 : Nat) ^ 63 = 9223372036854775808 := by norm_num
  rw [h63] at h
  unfold formatInt
  by_cases hneg : i < 0
  · rw [if_pos hneg]
    obtain ⟨c, tl, e, hc1, hc2⟩ := decDigits_head 20 i.natAbs (by omega) hn
    rw [e] at hv ⊢
    simp only [parseInt64, if_true, hv, h63n]
    rw [if_pos (by omega)]
    congr 1
    omega
  · rw [if_neg hneg]
    have hd := decDigits_digits 20 i.natAbs
    have hne : ∃ c tl, decDigits 20 i.natAbs = c :: tl ∧ isDigit c := by
      by_cases h0 : i.natAbs = 0
      · rw [h0]; exact ⟨48, [], by decide, by unfold isDigit; omega⟩
      · obtain ⟨c, tl, e, hc1, hc2⟩ := decDigits_head 20 i.natAbs (by omega) hn
        exact ⟨c, tl, e, by unfold isDigit; omega⟩
    obtain ⟨c, tl, e, hc⟩ := hne
    unfold isDigit at hc
    rw [e] at hv ⊢
    simp only [parseInt64, show c ≠ 45 by omega, show c ≠ 43 by omega, if_false, hv, h63n]
    rw [if_pos (by omega)]
    congr 1
    omega

theorem step_none_of_terminator (st : NumState) (c : Nat) (h : c = 44 ∨ c = 93 ∨ c = 125) :
    st.step c = none := by
  rcases h with h | h | h <;> subst h <;> cases st <;> decide

theorem numScan_append (st : NumState) (l rest : GoString) (h : numScan st l = some (l, []))
    (ht : Terminated rest) : numScan st (l ++ rest) = some (l, rest) := by
  induction l generalizing st with
  | nil =>
    have hacc : st.accepting = true := by
      unfold numScan at h
      by_contra hn
      simp [hn] at h
    rcases ht with e | ⟨r, e⟩
    · subst e; exact h
    · have : ∃ c, rest = c :: r ∧ (c = 44 ∨ c = 93 ∨ c = 125) := by
        rcases e with e | e | e
        · exact ⟨44, e, Or.inl rfl⟩
        · exact ⟨93, e, Or.inr (Or.inl rfl)⟩
        · exact ⟨125, e, Or.inr (Or.inr rfl)⟩
      obtain ⟨c, e2, hc⟩ := this
      subst e2
      simp only [List.nil_append, numScan, step_none_of_terminator st c hc, hacc, if_true]
  | cons c tl ih =>
    rw [List.cons_append]
    unfold numScan at h ⊢
    cases hs : st.step c with
    | none =>
      rw [hs] at h
      simp only at h
      split at h
      · simp at h
      · simp at h
    | some st1 =>
      rw [hs] at h
      simp only at h ⊢
      cases hn : numScan st1 tl with
      | none => rw [hn] at h; simp [prepend] at h
      | some p =>
        obtain ⟨a, b⟩ := p
        rw [hn] at h
        simp only [prepend, List.singleton_append, Option.some.injEq, Prod.mk.injEq,
          List.cons.injEq, true_and] at h
        obtain ⟨h1, h2⟩ := h
        subst h1 h2
        rw [ih st1 hn]
        rfl

theorem numberLit_head {lit : GoString} (h : isNumberLit lit) :
    ∃ c tl, lit = c :: tl ∧ (c = 45 ∨ isDigit c) := by
  unfold isNumberLit scanNumber at h
  cases lit with
  | nil => simp [numScan, NumState.accepting] at h
  | cons c tl =>
    refine ⟨c, tl, rfl, ?_⟩
    unfold numScan at h
    cases hs : NumState.step .start c with
    | none => rw [hs] at h; simp [NumState.accepting] at h
    | some st1 =>
      unfold NumState.step at hs
      simp only at hs
      unfold isDigit
      by_contra hcon
      rw [not_or] at hcon
      have h48 : c ≠ 48 := by intro e; apply hcon.2; omega
      simp [hcon.1, h48, hcon.2] at hs

/-! ## Round trip: UTF-8 and string literals -/

theorem encodeRune_two (p0 b1 : Nat) (h0 : 0xC2 ≤ p0) (h1 : p0 < 0xE0) (h2 : 0x80 ≤ b1)
    (h3 : b1 ≤ 0xBF) : encodeRune (p0 % 32 * 64 + b1 % 64) = [p0, b1] := by
  unfold encodeRune
  rw [if_neg (by omega), if_pos (by omega)]
  congr 1
  · omega
  · congr 1
    omega

theorem encodeRune_three (p0 b1 b2 : Nat) (h0 : 0xE0 ≤ p0) (h1 : p0 < 0xF0)
    (h2 : (if p0 = 0xE0 then 0xA0 else 0x80) ≤ b1)
    (h3 : b1 ≤ (if p0 = 0xED then 0x9F else 0xBF)) (h4 : 0x80 ≤ b2) (h5 : b2 ≤ 0xBF) :
    encodeRune (p0 % 16 * 4096 + b1 % 64 * 64 + b2 % 64) = [p0, b1, b2] := by
  have k2 : 0x80 ≤ b1 := by split at h2 <;> omega
  have k3 : b1 ≤ 0xBF := by split at h3 <;> omega
  have k4 : p0 = 0xE0 → 0xA0 ≤ b1 := fun e => by rw [if_pos e] at h2; exact h2
  have k5 : p0 = 0xED → b1 ≤ 0x9F := fun e => by rw [if_pos e] at h3; exact h3
  clear h2 h3
  unfold encodeRune
  rw [if_neg (by omega), if_neg (by omega), if_neg (by omega), if_pos (by omega)]
  congr 1
  · omega
  · congr 1
    · omega
    · congr 1
      omega

theorem encodeRune_four (p0 b1 b2 b3 : Nat) (h0 : 0xF0 ≤ p0) (h1 : p0 < 0xF5)
    (h2 : (if p0 = 0xF0 then 0x90 else 0x80) ≤ b1)
    (h3 : b1 ≤ (if p0 = 0xF4 then 0x8F else 0xBF)) (h4 : 0x80 ≤ b2) (h5 : b2 ≤ 0xBF)
    (h6 : 0x80 ≤ b3) (h7 : b3 ≤ 0xBF) :
    encodeRune (p0 % 8 * 262144 + b1 % 64 * 4096 + b2 % 64 * 64 + b3 % 64) = [p0, b1, b2, b3] := by
  have k2 : 0x80 ≤ b1 := by split at h2 <;> omega
  have k3 : b1 ≤ 0xBF := by split at h3 <;> omega
  have k4 : p0 = 0xF0 → 0x90 ≤ b1 := fun e => by rw [if_pos e] at h2; exact h2
  have k5 : p0 = 0xF4 → b1 ≤ 0x8F := fun e => by rw [if_pos e] at h3; exact h3
  clear h2 h3
  unfold encodeRune
  rw [if_neg (by omega), if_neg (by omega), if_neg (by omega), if_neg (by omega)]
  congr 1
  · omega
  · congr 1
    · omega
    · congr 1
      · omega
      · congr 1
        omega

theorem decodeRune_cons (p0 : Nat) (rest : GoString) :
    decodeRune (p0 :: rest)
      = if p0 < 0x80 then (p0, 1)
        else if p0 < 0xC2 then (RuneError, 1)
        else if p0 < 0xE0 then
          match rest with
          | b1 :: _ =>
            if 0x80 ≤ b1 ∧ b1 ≤ 0xBF then (p0 % 32 * 64 + b1 % 64, 2) else (RuneError, 1)
          | [] => (RuneError, 1)
        else if p0 < 0xF0 then
          match rest with
          | b1 :: b2 :: _ =>
            if (if p0 = 0xE0 then 0xA0 else 0x80) ≤ b1 ∧ b1 ≤ (if p0 = 0xED then 0x9F else 0xBF) then
              if 0x80 ≤ b2 ∧ b2 ≤ 0xBF then (p0 % 16 * 4096 + b1 % 64 * 64 + b2 % 64, 3)
              else (RuneError, 1)
            else (RuneError, 1)
          | _ => (RuneError, 1)
        else if p0 < 0xF5 then
          match rest with
          | b1 :: b2 :: b3 :: _ =>
            if (if p0 = 0xF0 then 0x90 else 0x80) ≤ b1 ∧ b1 ≤ (if p0 = 0xF4 then 0x8F else 0xBF) then
              if 0x80 ≤ b2 ∧ b2 ≤ 0xBF then
                if 0x80 ≤ b3 ∧ b3 ≤ 0xBF then
                  (p0 % 8 * 262144 + b1 % 64 * 4096 + b2 % 64 * 64 + b3 % 64, 4)
                else (RuneError, 1)
              else (RuneError, 1)
            else (RuneError, 1)
          | _ => (RuneError, 1)
        else (RuneError, 1) := rfl

/-- What a valid multi-byte encoding at the head of `x` gives: its width, and that
encoding the decoded rune gives the same bytes back. -/
theorem decodeRune_valid (b : Nat) (t : GoString) (hb : 0x80 ≤ b)
    (hv : ¬ ((decodeRune (b :: t)).1 = RuneError ∧ (decodeRune (b :: t)).2 = 1)) :
    2 ≤ (decodeRune (b :: t)).2 ∧ (decodeRune (b :: t)).2 ≤ (b :: t).length ∧
    encodeRune (decodeRune (b :: t)).1 = (b :: t).take (decodeRune (b :: t)).2 ∧
    ∀ y, decodeRune ((b :: t).take (decodeRune (b :: t)).2 ++ y) = decodeRune (b :: t) := by
  rw [decodeRune_cons] at hv ⊢
  rw [if_neg (by omega)] at hv ⊢
  by_cases c1 : b < 0xC2
  · rw [if_pos c1] at hv; exact absurd ⟨rfl, rfl⟩ hv
  rw [if_neg c1] at hv ⊢
  by_cases c2 : b < 0xE0
  · rw [if_pos c2] at hv ⊢
    rcases t with _ | ⟨b1, t1⟩
    · exact absurd ⟨rfl, rfl⟩ hv
    · simp only at hv ⊢
      by_cases r1 : 0x80 ≤ b1 ∧ b1 ≤ 0xBF
      · rw [if_pos r1]
        refine ⟨by simp, by simp, ?_, ?_⟩
        · simp only [List.take_succ_cons, List.take_zero]
          exact encodeRune_two b b1 (by omega) c2 r1.1 r1.2
        · intro y
          simp only [List.take_succ_cons, List.take_zero, List.cons_append, List.nil_append]
          rw [decodeRune_cons, if_neg (by omega), if_neg c1, if_pos c2]
          simp only
          rw [if_pos r1]
      · rw [if_neg r1] at hv; exact absurd ⟨rfl, rfl⟩ hv
  rw [if_neg c2] at hv ⊢
  by_cases c3 : b < 0xF0
  · rw [if_pos c3] at hv ⊢
    rcases t with _ | ⟨b1, _ | ⟨b2, t2⟩⟩
    · exact absurd ⟨rfl, rfl⟩ hv
    · exact absurd ⟨rfl, rfl⟩ hv
    · simp only at hv ⊢
      by_cases r1 : (if b = 0xE0 then 0xA0 else 0x80) ≤ b1 ∧ b1 ≤ (if b = 0xED then 0x9F else 0xBF)
      · rw [if_pos r1] at hv ⊢
        by_cases r2 : 0x80 ≤ b2 ∧ b2 ≤ 0xBF
        · rw [if_pos r2]
          refine ⟨by simp, by simp, ?_, ?_⟩
          · simp only [List.take_succ_cons, List.take_zero]
            exact encodeRune_three b b1 b2 (by omega) c3 r1.1 r1.2 r2.1 r2.2
          · intro y
            simp only [List.take_succ_cons, List.take_zero, List.cons_append, List.nil_append]
            rw [decodeRune_cons, if_neg (by omega), if_neg c1, if_neg c2, if_pos c3]
            simp only
            rw [if_pos r1, if_pos r2]
        · rw [if_neg r2] at hv; exact absurd ⟨rfl, rfl⟩ hv
      · rw [if_neg r1] at hv; exact absurd ⟨rfl, rfl⟩ hv
  rw [if_neg c3] at hv ⊢
  by_cases c4 : b < 0xF5
  · rw [if_pos c4] at hv ⊢
    rcases t with _ | ⟨b1, _ | ⟨b2, _ | ⟨b3, t3⟩⟩⟩
    · exact absurd ⟨rfl, rfl⟩ hv
    · exact absurd ⟨rfl, rfl⟩ hv
    · exact absurd ⟨rfl, rfl⟩ hv
    · simp only at hv ⊢
      by_cases r1 : (if b = 0xF0 then 0x90 else 0x80) ≤ b1 ∧ b1 ≤ (if b = 0xF4 then 0x8F else 0xBF)
      · rw [if_pos r1] at hv ⊢
        by_cases r2 : 0x80 ≤ b2 ∧ b2 ≤ 0xBF
        · rw [if_pos r2] at hv ⊢
          by_cases r3 : 0x80 ≤ b3 ∧ b3 ≤ 0xBF
          · rw [if_pos r3]
            refine ⟨by simp, by simp, ?_, ?_⟩
            · simp only [List.take_succ_cons, List.take_zero]
              exact encodeRune_four b b1 b2 b3 (by omega) c4 r1.1 r1.2 r2.1 r2.2 r3.1 r3.2
            · intro y
              simp only [List.take_succ_cons, List.take_zero, List.cons_append, List.nil_append]
              rw [decodeRune_cons, if_neg (by omega), if_neg c1, if_neg c2, if_neg c3, if_pos c4]
              simp only
              rw [if_pos r1, if_pos r2, if_pos r3]
          · rw [if_neg r3] at hv; exact absurd ⟨rfl, rfl⟩ hv
        · rw [if_neg r2] at hv; exact absurd ⟨rfl, rfl⟩ hv
      · rw [if_neg r1] at hv; exact absurd ⟨rfl, rfl⟩ hv
  · rw [if_neg c4] at hv; exact absurd ⟨rfl, rfl⟩ hv

theorem decodeRune_ascii (b : Nat) (t : GoString) (hb : b < 0x80) :
    decodeRune (b :: t) = (b, 1) := by
  rw [decodeRune_cons, if_pos hb]

theorem parse_escapeByte (b : Nat) (hb : b < 0x80) (f : Nat) (r : GoString) :
    parseStringBody (f + 1) (escapeByte b ++ r) = prepend [b] (parseStringBody f r) := by
  interval_cases b <;> rfl

theorem parseStringBody_high (f c : Nat) (r : GoString) (h : 0x80 ≤ c) :
    parseStringBody (f + 1) (c :: r)
      = prepend (encodeRune (decodeRune (c :: r)).1)
          (parseStringBody f ((c :: r).drop (decodeRune (c :: r)).2)) := by
  conv_lhs => unfold parseStringBody
  rw [if_neg (by omega), if_neg (by omega), if_neg (by omega), if_neg (by omega)]

theorem parse_copied_rune (b : Nat) (t : GoString) (hb : 0x80 ≤ b)
    (hv : ¬ ((decodeRune (b :: t)).1 = RuneError ∧ (decodeRune (b :: t)).2 = 1))
    (f : Nat) (rest : GoString) :
    parseStringBody (f + 1) ((b :: t).take (decodeRune (b :: t)).2 ++ rest)
      = prepend ((b :: t).take (decodeRune (b :: t)).2) (parseStringBody f rest) := by
  obtain ⟨h2, hlen, henc, hdec⟩ := decodeRune_valid b t hb hv
  have hd := hdec rest
  obtain ⟨k, hk⟩ : ∃ k, (decodeRune (b :: t)).2 = k + 1 := ⟨(decodeRune (b :: t)).2 - 1, by omega⟩
  have htake : (b :: t).take (decodeRune (b :: t)).2 ++ rest = b :: (t.take k ++ rest) := by
    rw [hk]; rfl
  have hdrop : ((b :: t).take (decodeRune (b :: t)).2 ++ rest).drop (decodeRune (b :: t)).2
      = rest := by
    apply List.drop_left'
    rw [List.length_take]
    omega
  rw [htake] at hd hdrop ⊢
  rw [parseStringBody_high f b _ hb, hd, henc, hdrop]

theorem parse_separator_escape (c : Nat) (hc : c = 0x2028 ∨ c = 0x2029) (f : Nat)
    (rest : GoString) :
    parseStringBody (f + 1) ([92, 117, 50, 48, 50, hexDigit (c % 16)] ++ rest)
      = prepend (encodeRune c) (parseStringBody f rest) := by
  rcases hc with e | e <;> subst e <;> rfl

theorem escapeByte_length (b : Nat) : 1 ≤ (escapeByte b).length := by
  unfold escapeByte
  split_ifs <;> simp

theorem prepend_some (pre s rest : GoString) :
    prepend pre (some (s, rest)) = some (pre ++ s, rest) := rfl

/-- Reading back the body of a string literal written by `appendString`, for a string
that is valid UTF-8. -/
theorem parse_appendStringBody (n : Nat) :
    ∀ (s : GoString) (f : Nat) (rest : GoString), s.length ≤ n → validUTF8 n s = true →
      (appendStringBody n s).length < f →
      parseStringBody f (appendStringBody n s ++ 34 :: rest) = some (s, rest) := by
  induction n with
  | zero =>
    intro s f rest hlen _ hf
    have hs : s = [] := List.length_eq_zero.mp (by omega)
    subst hs
    obtain ⟨f1, rfl⟩ : ∃ f1, f = f1 + 1 := ⟨f - 1, by omega⟩
    rfl
  | succ n ih =>
    intro s f rest hlen hvalid hf
    obtain ⟨f1, rfl⟩ : ∃ f1, f = f1 + 1 := ⟨f - 1, by omega⟩
    cases s with
    | nil => rfl
    | cons b t =>
      rw [validUTF8] at hvalid
      rw [appendStringBody] at hf ⊢
      by_cases hb : b < 0x80
      · rw [if_pos hb] at hf ⊢
        rw [decodeRune_ascii b t hb] at hvalid
        have hv2 : validUTF8 n t = true := by
          simp only [List.drop_succ_cons, List.drop_zero] at hvalid
          split at hvalid
          · cases hvalid
          · exact hvalid
        have hl := escapeByte_length b
        rw [List.length_append] at hf
        rw [List.append_assoc, parse_escapeByte b hb,
          ih t f1 rest (by simpa using hlen) hv2 (by omega)]
        rfl
      · rw [if_neg hb] at hf ⊢
        by_cases herr : (decodeRune (b :: t)).1 = RuneError ∧ (decodeRune (b :: t)).2 = 1
        · rw [if_pos herr] at hvalid
          cases hvalid
        · rw [if_neg herr] at hvalid hf ⊢
          obtain ⟨h2, hle, henc, _⟩ := decodeRune_valid b t (by omega) herr
          have hdl : ((b :: t).drop (decodeRune (b :: t)).2).length ≤ n := by
            rw [List.length_drop]
            simp only [List.length_cons] at hlen ⊢
            omega
          have hsplit : (b :: t).take (decodeRune (b :: t)).2
              ++ (b :: t).drop (decodeRune (b :: t)).2 = b :: t := List.take_append_drop _ _
          by_cases hsep : (decodeRune (b :: t)).1 = 0x2028 ∨ (decodeRune (b :: t)).1 = 0x2029
          · rw [if_pos hsep] at hf ⊢
            rw [List.length_append] at hf
            simp only [List.length_cons, List.length_nil] at hf
            rw [List.append_assoc, parse_separator_escape _ hsep,
              ih _ f1 rest hdl hvalid (by omega), prepend_some, henc, hsplit]
          · rw [if_neg hsep] at hf ⊢
            rw [List.length_append, List.length_take] at hf
            rw [List.append_assoc, parse_copied_rune b t (by omega) herr,
              ih _ f1 rest hdl hvalid (by omega), prepend_some, hsplit]

/-- Reading back a string literal written by `appendString`, from behind its opening
quote. -/
theorem parseString_appendString (s rest : GoString) (h : s.valid = true) :
    parseString (appendStringBody s.length s ++ 34 :: rest) = some (s, rest) := by
  unfold parseString
  apply parse_appendStringBody s.length s _ rest (Nat.le_refl _) h
  rw [List.length_append]
  omega

/-! ## Round trip: values, arrays and objects -/

theorem skipWS_cons {c : Nat} (h : isSpace c = false) (tl : GoString) :
    skipWS (c :: tl) = c :: tl := by
  rw [skipWS, h]
  rfl

theorem skipWS_terminated {rest : GoString} (h : Terminated rest) : skipWS rest = rest := by
  rcases h with e | ⟨r, e | e | e⟩ <;> subst e <;> rfl

theorem Prints.skip {pv : GoString → Option (JSON × GoString)} {bytes : GoString} {v : JSON}
    (h : Prints pv bytes v) (rest : GoString) : skipWS (bytes ++ rest) = bytes ++ rest := by
  obtain ⟨⟨c, tl, e, hc, _⟩, _⟩ := h
  subst e
  exact skipWS_cons hc _

theorem parseValue_scalar (d c : Nat) (tl : GoString) (h1 : c ≠ 123) (h2 : c ≠ 91) :
    parseValue d (c :: tl) = parseScalar (c :: tl) := by
  cases d with
  | zero =>
    unfold parseValue
    split
    · rename_i heq; simp at heq; exact absurd heq.1 h1
    · rename_i heq; simp at heq; exact absurd heq.1 h2
    · rfl
  | succ d =>
    unfold parseValue
    split
    · rename_i heq; simp at heq; exact absurd heq.1 h1
    · rename_i heq; simp at heq; exact absurd heq.1 h2
    · rfl

theorem parseScalar_number (c : Nat) (tl : GoString) (h : c = 45 ∨ isDigit c) :
    parseScalar (c :: tl)
      = match scanNumber (c :: tl) with
        | some (lit, rest) => some (.number lit, rest)
        | none => none := by
  have h1 : c ≠ 34 := by unfold isDigit at h; omega
  have h2 : c ≠ 116 := by unfold isDigit at h; omega
  have h3 : c ≠ 102 := by unfold isDigit at h; omega
  have h4 : c ≠ 110 := by unfold isDigit at h; omega
  unfold parseScalar
  split
  · rename_i heq; simp at heq; exact absurd heq.1 h1
  · rename_i heq; simp at heq; exact absurd heq.1 h2
  · rename_i heq; simp at heq; exact absurd heq.1 h3
  · rename_i heq; simp at heq; exact absurd heq.1 h4
  · rfl

theorem prints_string (d : Nat) (s : GoString) (h : s.valid = true) :
    Prints (parseValue d) (appendString s) (.string s) := by
  refine ⟨⟨34, _, rfl, by decide, by decide⟩, ?_⟩
  intro rest _
  have e : appendString s ++ rest = 34 :: (appendStringBody s.length s ++ 34 :: rest) := by
    simp [appendString]
  rw [e, parseValue_scalar d 34 _ (by decide) (by decide)]
  unfold parseScalar
  simp only [parseString_appendString s rest h]

theorem prints_number (d : Nat) (lit : GoString) (h : isNumberLit lit) :
    Prints (parseValue d) lit (.number lit) := by
  obtain ⟨c, tl, e, hc⟩ := numberLit_head h
  have hc2 : isSpace c = false ∧ c ≠ 93 ∧ c ≠ 123 ∧ c ≠ 91 := by
    unfold isDigit at hc
    refine ⟨?_, by omega, by omega, by omega⟩
    unfold isSpace
    simp
    omega
  refine ⟨⟨c, tl, e, hc2.1, hc2.2.1⟩, ?_⟩
  intro rest hrest
  have hs : scanNumber (lit ++ rest) = some (lit, rest) := numScan_append .start lit rest h hrest
  subst e
  rw [List.cons_append] at hs ⊢
  rw [parseValue_scalar d c _ hc2.2.2.1 hc2.2.2.2, parseScalar_number c _ hc, hs]

theorem prints_null (d : Nat) : Prints (parseValue d) (str "null") .null := by
  refine ⟨⟨110, str "ull", by decide, by decide, by decide⟩, ?_⟩
  intro rest _
  have e : str "null" ++ rest = 110 :: 117 :: 108 :: 108 :: rest := by
    have : str "null" = [110, 117, 108, 108] := by decide
    rw [this]
    rfl
  rw [e, parseValue_scalar d 110 _ (by decide) (by decide)]
  rfl

theorem commaSep_cons_cons (x y : GoString) (rest : List GoString) :
    commaSep (x :: y :: rest) = x ++ 44 :: commaSep (y :: rest) := rfl

theorem commaSep_length (bs : List GoString) (h : ∀ b ∈ bs, b ≠ []) :
    bs.length ≤ (commaSep bs).length := by
  induction bs with
  | nil => simp
  | cons x rest ih =>
    have hx : 1 ≤ x.length := by
      have := h x (List.mem_cons_self _ _)
      cases x with
      | nil => exact absurd rfl this
      | cons a l => simp
    cases rest with
    | nil => simpa [commaSep] using hx
    | cons y ys =>
      have := ih (fun b hb => h b (List.mem_cons_of_mem _ hb))
      rw [commaSep_cons_cons, List.length_append]
      simp only [List.length_cons] at this ⊢
      omega

theorem Prints.ne_nil {pv : GoString → Option (JSON × GoString)} {bytes : GoString} {v : JSON}
    (h : Prints pv bytes v) : bytes ≠ [] := by
  obtain ⟨⟨c, tl, e, _, _⟩, _⟩ := h
  rw [e]
  exact List.cons_ne_nil _ _

theorem parseElems_commaSep (pv : GoString → Option (JSON × GoString))
    (elems : List (GoString × JSON)) (e0 : GoString × JSON)
    (h : ∀ e ∈ e0 :: elems, Prints pv e.1 e.2) (fuel : Nat) (hf : elems.length < fuel)
    (rest : GoString) :
    parseElems pv fuel (commaSep ((e0 :: elems).map Prod.fst) ++ 93 :: rest)
      = some ((e0 :: elems).map Prod.snd, rest) := by
  induction elems generalizing e0 fuel with
  | nil =>
    obtain ⟨f1, rfl⟩ : ∃ f1, fuel = f1 + 1 := ⟨fuel - 1, by omega⟩
    have hp := (h e0 (List.mem_cons_self _ _)).2 (93 :: rest) (Or.inr ⟨rest, Or.inr (Or.inl rfl)⟩)
    simp only [List.map_cons, List.map_nil, commaSep]
    rw [parseElems, hp]
    rfl
  | cons e1 es ih =>
    obtain ⟨f1, rfl⟩ : ∃ f1, fuel = f1 + 1 := ⟨fuel - 1, by omega⟩
    have h1 : ∀ e ∈ e1 :: es, Prints pv e.1 e.2 := fun e he => h e (List.mem_cons_of_mem _ he)
    have hrec := ih e1 h1 f1 (by simp only [List.length_cons] at hf; omega)
    have hp := (h e0 (List.mem_cons_self _ _)).2
      (44 :: (commaSep ((e1 :: es).map Prod.fst) ++ 93 :: rest)) (Or.inr ⟨_, Or.inl rfl⟩)
    have hskip : skipWS (commaSep ((e1 :: es).map Prod.fst) ++ 93 :: rest)
        = commaSep ((e1 :: es).map Prod.fst) ++ 93 :: rest := by
      obtain ⟨⟨c, tl, e, hc, _⟩, _⟩ := h1 e1 (List.mem_cons_self _ _)
      cases es with
      | nil =>
        simp only [List.map_cons, List.map_nil, commaSep]
        rw [e]
        exact skipWS_cons hc _
      | cons e2 es2 =>
        simp only [List.map_cons, commaSep_cons_cons]
        rw [e]
        exact skipWS_cons hc _
    have hin : commaSep ((e0 :: e1 :: es).map Prod.fst) ++ 93 :: rest
        = e0.1 ++ 44 :: (commaSep ((e1 :: es).map Prod.fst) ++ 93 :: rest) := by
      simp only [List.map_cons, commaSep_cons_cons, List.append_assoc, List.cons_append]
    rw [hin, parseElems, hp]
    simp only [skipWS_cons (show isSpace 44 = false by decide), hskip, hrec]
    rfl

theorem prints_array (d : Nat) (elems : List (GoString × JSON))
    (h : ∀ e ∈ elems, Prints (parseValue d) e.1 e.2) :
    Prints (parseValue (d + 1)) (marshalArray (elems.map Prod.fst))
      (.array (elems.map Prod.snd)) := by
  refine ⟨⟨91, _, rfl, by decide, by decide⟩, ?_⟩
  intro rest _
  cases elems with
  | nil => rfl
  | cons e0 es =>
    have hskip : skipWS (commaSep ((e0 :: es).map Prod.fst) ++ 93 :: rest)
        = commaSep ((e0 :: es).map Prod.fst) ++ 93 :: rest := by
      obtain ⟨⟨c, tl, e, hc, _⟩, _⟩ := h e0 (List.mem_cons_self _ _)
      cases es with
      | nil =>
        simp only [List.map_cons, List.map_nil, commaSep]
        rw [e]
        exact skipWS_cons hc _
      | cons e2 es2 =>
        simp only [List.map_cons, commaSep_cons_cons]
        rw [e]
        exact skipWS_cons hc _
    have hhead : ∃ c tl, commaSep ((e0 :: es).map Prod.fst) ++ 93 :: rest = c :: tl ∧ c ≠ 93 := by
      obtain ⟨⟨c, tl, e, _, hc⟩, _⟩ := h e0 (List.mem_cons_self _ _)
      cases es with
      | nil =>
        simp only [List.map_cons, List.map_nil, commaSep]
        rw [e]
        exact ⟨c, _, rfl, hc⟩
      | cons e2 es2 =>
        simp only [List.map_cons, commaSep_cons_cons]
        rw [e]
        exact ⟨c, _, rfl, hc⟩
    obtain ⟨c, tl, hct, hc⟩ := hhead
    have hel := parseElems_commaSep (parseValue d) es e0 h
      ((commaSep ((e0 :: es).map Prod.fst) ++ 93 :: rest).length + 1)
      (by
        have hl := commaSep_length ((e0 :: es).map Prod.fst) (by
          intro b hb
          rw [List.mem_map] at hb
          obtain ⟨e, he, rfl⟩ := hb
          exact (h e he).ne_nil)
        rw [List.length_append]
        simp only [List.length_map, List.length_cons] at hl ⊢
        omega)
      rest
    have e : marshalArray ((e0 :: es).map Prod.fst) ++ rest
        = 91 :: (commaSep ((e0 :: es).map Prod.fst) ++ 93 :: rest) := by
      simp [marshalArray]
    rw [e]
    show parseArray (parseValue d) _ = _
    unfold parseArray
    rw [hskip]
    rw [hct] at hel ⊢
    split
    · rename_i heq; simp at heq; exact absurd heq.1 hc
    · rw [hel]

theorem parseMembers_commaSep (pv : GoString → Option (JSON × GoString))
    (fields : List (GoString × GoString × JSON)) (f0 : GoString × GoString × JSON)
    (h : ∀ f ∈ f0 :: fields, f.1.valid = true ∧ Prints pv f.2.1 f.2.2) (fuel : Nat)
    (hf : fields.length < fuel) (rest : GoString) :
    parseMembers pv fuel
        (commaSep ((f0 :: fields).map (fun f => appendString f.1 ++ 58 :: f.2.1)) ++ 125 :: rest)
      = some ((f0 :: fields).map (fun f => (f.1, f.2.2)), rest) := by
  induction fields generalizing f0 fuel with
  | nil =>
    obtain ⟨f1, rfl⟩ : ∃ f1, fuel = f1 + 1 := ⟨fuel - 1, by omega⟩
    obtain ⟨hk, hp⟩ := h f0 (List.mem_cons_self _ _)
    have hv := hp.2 (125 :: rest) (Or.inr ⟨rest, Or.inr (Or.inr rfl)⟩)
    have hin : commaSep ([f0].map (fun f => appendString f.1 ++ 58 :: f.2.1)) ++ 125 :: rest
        = 34 :: (appendStringBody f0.1.length f0.1 ++ 34 :: 58 :: (f0.2.1 ++ 125 :: rest)) := by
      simp [commaSep, appendString]
    rw [hin, parseMembers]
    simp only [parseString_appendString f0.1 _ hk,
      skipWS_cons (show isSpace 58 = false by decide), hp.skip, hv,
      skipWS_cons (show isSpace 125 = false by decide), List.map_cons, List.map_nil]
  | cons f1 fs ih =>
    obtain ⟨fu, rfl⟩ : ∃ fu, fuel = fu + 1 := ⟨fuel - 1, by omega⟩
    obtain ⟨hk, hp⟩ := h f0 (List.mem_cons_self _ _)
    have h1 : ∀ f ∈ f1 :: fs, f.1.valid = true ∧ Prints pv f.2.1 f.2.2 :=
      fun f hf => h f (List.mem_cons_of_mem _ hf)
    have hrec := ih f1 h1 fu (by simp only [List.length_cons] at hf; omega)
    have hv := hp.2
      (44 :: (commaSep ((f1 :: fs).map (fun f => appendString f.1 ++ 58 :: f.2.1)) ++ 125 :: rest))
      (Or.inr ⟨_, Or.inl rfl⟩)
    have hskip : skipWS (commaSep ((f1 :: fs).map (fun f => appendString f.1 ++ 58 :: f.2.1))
          ++ 125 :: rest)
        = commaSep ((f1 :: fs).map (fun f => appendString f.1 ++ 58 :: f.2.1)) ++ 125 :: rest := by
      cases fs with
      | nil =>
        simp only [List.map_cons, List.map_nil, commaSep, appendString, List.cons_append]
        exact skipWS_cons (by decide) _
      | cons f2 fs2 =>
        simp only [List.map_cons, commaSep_cons_cons, appendString, List.cons_append]
        exact skipWS_cons (by decide) _
    have hin : commaSep ((f0 :: f1 :: fs).map (fun f => appendString f.1 ++ 58 :: f.2.1))
          ++ 125 :: rest
        = 34 :: (appendStringBody f0.1.length f0.1 ++ 34 :: 58 :: (f0.2.1 ++ 44 ::
            (commaSep ((f1 :: fs).map (fun f => appendString f.1 ++ 58 :: f.2.1))
              ++ 125 :: rest))) := by
      simp [commaSep_cons_cons, appendString]
    rw [hin, parseMembers]
    simp only [parseString_appendString f0.1 _ hk,
      skipWS_cons (show isSpace 58 = false by decide), hp.skip, hv,
      skipWS_cons (show isSpace 44 = false by decide), hskip, hrec]
    rfl

theorem prints_object (d : Nat) (fields : List (GoString × GoString × JSON))
    (h : ∀ f ∈ fields, f.1.valid = true ∧ Prints (parseValue d) f.2.1 f.2.2) :
    Prints (parseValue (d + 1)) (marshalObject (fields.map (fun f => (f.1, f.2.1))))
      (.object (fields.map (fun f => (f.1, f.2.2)))) := by
  refine ⟨⟨123, _, rfl, by decide, by decide⟩, ?_⟩
  intro rest _
  cases fields with
  | nil => rfl
  | cons f0 fs =>
    have hmap : (List.map (fun f => appendString f.1 ++ 58 :: f.2)
          (List.map (fun f : GoString × GoString × JSON => (f.1, f.2.1)) (f0 :: fs)))
        = (f0 :: fs).map (fun f => appendString f.1 ++ 58 :: f.2.1) := by
      rw [List.map_map]
      rfl
    have e : marshalObject ((f0 :: fs).map (fun f => (f.1, f.2.1))) ++ rest
        = 123 :: (commaSep ((f0 :: fs).map (fun f => appendString f.1 ++ 58 :: f.2.1))
            ++ 125 :: rest) := by
      unfold marshalObject
      rw [hmap]
      simp
    have hhead : ∃ tl, commaSep ((f0 :: fs).map (fun f => appendString f.1 ++ 58 :: f.2.1))
          ++ 125 :: rest = 34 :: tl := by
      cases fs with
      | nil =>
        simp only [List.map_cons, List.map_nil, commaSep, appendString, List.cons_append]
        exact ⟨_, rfl⟩
      | cons f2 fs2 =>
        simp only [List.map_cons, commaSep_cons_cons, appendString, List.cons_append]
        exact ⟨_, rfl⟩
    obtain ⟨tl, htl⟩ := hhead
    have hmem := parseMembers_commaSep (parseValue d) fs f0 h
      ((commaSep ((f0 :: fs).map (fun f => appendString f.1 ++ 58 :: f.2.1))
          ++ 125 :: rest).length + 1)
      (by
        have hl := commaSep_length ((f0 :: fs).map (fun f => appendString f.1 ++ 58 :: f.2.1)) (by
          intro b hb
          rw [List.mem_map] at hb
          obtain ⟨f, _, rfl⟩ := hb
          simp [appendString])
        rw [List.length_append]
        simp only [List.length_map, List.length_cons] at hl ⊢
        omega)
      rest
    rw [e]
    show parseObject (parseValue d) _ = _
    unfold parseObject
    rw [htl] at hmem ⊢
    rw [skipWS_cons (show isSpace 34 = false by decide)]
    split
    · rename_i heq; simp at heq
    · rw [hmem]

/-! ## Round trip: the message structs -/

theorem prints_strings (d : Nat) (l : Slice GoString) (h : ∀ t ∈ l.toList, t.valid = true) :
    Prints (parseValue (d + 1)) (marshalStrings l) (stringsValue l) := by
  cases l with
  | none => exact prints_null (d + 1)
  | some ss =>
    have := prints_array d (ss.map (fun s => (appendString s, JSON.string s))) (by
      intro e he
      rw [List.mem_map] at he
      obtain ⟨s, hs, rfl⟩ := he
      exact prints_string d s (h s hs))
    rw [List.map_map, List.map_map] at this
    exact this

theorem prints_change (sc : Strconv) (d : Nat) (c : SymbolChange) (h : c.wellFormed sc) :
    marshalSymbolChange sc c
        = .ok (marshalObject [(str "Symbol", appendString c.Symbol),
                              (str "UpdateTime", formatInt c.UpdateTime),
                              (str "Price", sc.formatFloat c.Price)]) ∧
    Prints (parseValue (d + 1))
      (marshalObject [(str "Symbol", appendString c.Symbol),
                      (str "UpdateTime", formatInt c.UpdateTime),
                      (str "Price", sc.formatFloat c.Price)])
      (changeValue sc c) := by
  obtain ⟨h1, h2, h3, h4, _⟩ := h
  constructor
  · simp [marshalSymbolChange, marshalFloat, h3]
  · exact prints_object d
      [(str "Symbol", appendString c.Symbol, .string c.Symbol),
       (str "UpdateTime", formatInt c.UpdateTime, .number (formatInt c.UpdateTime)),
       (str "Price", sc.formatFloat c.Price, .number (sc.formatFloat c.Price))]
      (by
        intro f hf
        simp only [List.mem_cons, List.mem_singleton, List.not_mem_nil, or_false] at hf
        rcases hf with e | e | e <;> subst e
        · exact ⟨(by decide : (str "Symbol").valid = true), prints_string d _ h1⟩
        · exact ⟨(by decide : (str "UpdateTime").valid = true), prints_number d _ (formatInt_isNumberLit _ h2)⟩
        · exact ⟨(by decide : (str "Price").valid = true), prints_number d _ h4⟩)

theorem marshalChangeList_ok (sc : Strconv) (cs : List SymbolChange)
    (h : ∀ c ∈ cs, c.wellFormed sc) :
    marshalChangeList sc cs
      = .ok (cs.map (fun c => marshalObject [(str "Symbol", appendString c.Symbol),
                                             (str "UpdateTime", formatInt c.UpdateTime),
                                             (str "Price", sc.formatFloat c.Price)])) := by
  induction cs with
  | nil => rfl
  | cons c rest ih =>
    rw [marshalChangeList, (prints_change sc 0 c (h c (List.mem_cons_self _ _))).1,
      ih (fun x hx => h x (List.mem_cons_of_mem _ hx))]
    rfl

theorem prints_changes (sc : Strconv) (d : Nat) (l : Slice SymbolChange)
    (h : ∀ c ∈ l.toList, c.wellFormed sc) :
    ∃ b, marshalChanges sc l = .ok b ∧ Prints (parseValue (d + 2)) b (changesValue sc l) := by
  cases l with
  | none => exact ⟨str "null", rfl, prints_null (d + 2)⟩
  | some cs =>
    refine ⟨marshalArray (cs.map (fun c =>
        marshalObject [(str "Symbol", appendString c.Symbol),
                       (str "UpdateTime", formatInt c.UpdateTime),
                       (str "Price", sc.formatFloat c.Price)])),
      by simp only [marshalChanges, marshalChangeList_ok sc cs h], ?_⟩
    have := prints_array (d + 1)
      (cs.map (fun c => (marshalObject [(str "Symbol", appendString c.Symbol),
                                        (str "UpdateTime", formatInt c.UpdateTime),
                                        (str "Price", sc.formatFloat c.Price)],
                         changeValue sc c))) (by
      intro e he
      rw [List.mem_map] at he
      obtain ⟨c, hc, rfl⟩ := he
      exact (prints_change sc d c (h c hc)).2)
    rw [List.map_map, List.map_map] at this
    exact this

theorem prints_heartbeat (d : Nat) (a b c : Int) (ha : isInt64 a) (hb : isInt64 b)
    (hc : isInt64 c) :
    Prints (parseValue (d + 1)) (marshalHeartbeat a b c) (heartbeatValue a b c) :=
  prints_object d
    [(str "Sequence", formatInt a, .number (formatInt a)),
     (str "Seconds", formatInt b, .number (formatInt b)),
     (str "Nanos", formatInt c, .number (formatInt c))]
    (by
      intro f hf
      simp only [List.mem_cons, List.mem_singleton, List.not_mem_nil, or_false] at hf
      rcases hf with e | e | e <;> subst e
      · exact ⟨(by decide : (str "Sequence").valid = true), prints_number d _ (formatInt_isNumberLit _ ha)⟩
      · exact ⟨(by decide : (str "Seconds").valid = true), prints_number d _ (formatInt_isNumberLit _ hb)⟩
      · exact ⟨(by decide : (str "Nanos").valid = true), prints_number d _ (formatInt_isNumberLit _ hc)⟩)

/-- The text `json.Marshal` writes for a well-formed message is read back as the JSON
value of the message. -/
theorem prints_message (sc : Strconv) (d : Nat) (m : Message) (h : m.wellFormed sc) :
    ∃ b, Marshal sc m = .ok b ∧ Prints (parseValue (d + 3)) b (messageValue sc m) := by
  cases m with
  | tickerRequest m =>
    refine ⟨_, rfl, ?_⟩
    exact prints_object (d + 2)
      [(str "Id", appendString m.Id, .string m.Id),
       (str "Tickers", marshalStrings m.Tickers, stringsValue m.Tickers)]
      (by
        intro f hf
        simp only [List.mem_cons, List.mem_singleton, List.not_mem_nil, or_false] at hf
        rcases hf with e | e <;> subst e
        · exact ⟨(by decide : (str "Id").valid = true), prints_string (d + 2) _ h.1⟩
        · exact ⟨(by decide : (str "Tickers").valid = true), prints_strings (d + 1) _ h.2⟩)
  | tickerChange m =>
    obtain ⟨b, hb, hp⟩ := prints_changes sc d m.Changes h
    refine ⟨marshalObject [(str "Changes", b)], by simp only [Marshal, hb], ?_⟩
    exact prints_object (d + 2) [(str "Changes", b, changesValue sc m.Changes)]
      (by
        intro f hf
        simp only [List.mem_singleton] at hf
        subst hf
        exact ⟨(by decide : (str "Changes").valid = true), hp⟩)
  | ping m => exact ⟨_, rfl, prints_heartbeat (d + 2) _ _ _ h.1 h.2.1 h.2.2⟩
  | pong m => exact ⟨_, rfl, prints_heartbeat (d + 2) _ _ _ h.1 h.2.1 h.2.2⟩

theorem decodeElems_strings (prior : List GoString) (ss : List GoString) :
    decodeElems decodeString [] prior (ss.map JSON.string) = (ss, none) := by
  induction ss generalizing prior with
  | nil => rfl
  | cons s rest ih =>
    simp only [List.map_cons, decodeElems, ih, decodeString, firstError]

theorem decodeSlice_strings (l : Slice GoString) :
    (decodeSlice decodeString [] ⟨none, []⟩ (stringsValue l)).1.slice = l ∧
    (decodeSlice decodeString [] ⟨none, []⟩ (stringsValue l)).2 = none := by
  cases l with
  | none => exact ⟨rfl, rfl⟩
  | some ss =>
    cases ss with
    | nil => exact ⟨rfl, rfl⟩
    | cons s rest =>
      simp only [stringsValue, List.map_cons, decodeSlice]
      rw [← List.map_cons, decodeElems_strings]
      exact ⟨rfl, rfl⟩

theorem decodeSymbolChange_value (sc : Strconv) (cur c : SymbolChange) (h : c.wellFormed sc) :
    decodeSymbolChange sc cur (changeValue sc c) = (c, none) := by
  obtain ⟨_, h2, _, _, h5⟩ := h
  have i0 : fieldIndex [str "Symbol", str "UpdateTime", str "Price"] (str "Symbol") = some 0 := by
    decide
  have i1 : fieldIndex [str "Symbol", str "UpdateTime", str "Price"] (str "UpdateTime")
      = some 1 := by decide
  have i2 : fieldIndex [str "Symbol", str "UpdateTime", str "Price"] (str "Price") = some 2 := by
    decide
  simp only [decodeSymbolChange, changeValue, List.foldl_cons, List.foldl_nil,
    decodeSymbolChangeMember, i0, i1, i2, decodeString, decodeInt, decodeFloat,
    parseInt64_formatInt _ h2, h5, firstError]

theorem decodeElems_changes (sc : Strconv) (prior : List SymbolChange) (cs : List SymbolChange)
    (h : ∀ c ∈ cs, c.wellFormed sc) :
    decodeElems (decodeSymbolChange sc) SymbolChange.zero prior (cs.map (changeValue sc))
      = (cs, none) := by
  induction cs generalizing prior with
  | nil => rfl
  | cons c rest ih =>
    simp only [List.map_cons, decodeElems, ih _ (fun x hx => h x (List.mem_cons_of_mem _ hx)),
      decodeSymbolChange_value sc _ c (h c (List.mem_cons_self _ _)), firstError]

theorem decodeSlice_changes (sc : Strconv) (l : Slice SymbolChange)
    (h : ∀ c ∈ l.toList, c.wellFormed sc) :
    (decodeSlice (decodeSymbolChange sc) SymbolChange.zero ⟨none, []⟩ (changesValue sc l)).1.slice
      = l ∧
    (decodeSlice (decodeSymbolChange sc) SymbolChange.zero ⟨none, []⟩ (changesValue sc l)).2
      = none := by
  cases l with
  | none => exact ⟨rfl, rfl⟩
  | some cs =>
    cases cs with
    | nil => exact ⟨rfl, rfl⟩
    | cons c rest =>
      simp only [changesValue, List.map_cons, decodeSlice]
      rw [← List.map_cons, decodeElems_changes sc _ (c :: rest) h]
      exact ⟨rfl, rfl⟩

theorem decodeHeartbeat_fields :
    fieldIndex [str "Sequence", str "Seconds", str "Nanos"] (str "Sequence") = some 0 ∧
    fieldIndex [str "Sequence", str "Seconds", str "Nanos"] (str "Seconds") = some 1 ∧
    fieldIndex [str "Sequence", str "Seconds", str "Nanos"] (str "Nanos") = some 2 := by
  decide

/-- Decoding the JSON value of a well-formed message into the new struct of its name
gives the message, without error. -/
theorem decodeMessage_value (sc : Strconv) (m zero : Message) (h : m.wellFormed sc)
    (hz : construct m.Name = some zero) :
    (decodeMessage sc (targetOf zero) (messageValue sc m)).1.message = m ∧
    (decodeMessage sc (targetOf zero) (messageValue sc m)).2 = none := by
  obtain ⟨j0, j1, j2⟩ := decodeHeartbeat_fields
  cases m with
  | tickerRequest m =>
    have hz2 : zero = .tickerRequest { Id := [], Tickers := none } := by
      have : construct (Message.tickerRequest m).Name
          = some (.tickerRequest { Id := [], Tickers := none }) := by
        show construct (str "TickerRequest") = _
        decide
      rw [this] at hz
      exact (Option.some.inj hz).symm
    subst hz2
    have i0 : fieldIndex [str "Id", str "Tickers"] (str "Id") = some 0 := by decide
    have i1 : fieldIndex [str "Id", str "Tickers"] (str "Tickers") = some 1 := by decide
    obtain ⟨s1, s2⟩ := decodeSlice_strings m.Tickers
    simp only [decodeMessage, messageValue, targetOf, List.foldl_cons, List.foldl_nil,
      decodeMember, i0, i1, decodeString, s1, s2, firstError, Target.message, and_self]
  | tickerChange m =>
    have hz2 : zero = .tickerChange { Changes := none } := by
      have : construct (Message.tickerChange m).Name
          = some (.tickerChange { Changes := none }) := by
        show construct (str "TickerChange") = _
        decide
      rw [this] at hz
      exact (Option.some.inj hz).symm
    subst hz2
    have i0 : fieldIndex [str "Changes"] (str "Changes") = some 0 := by decide
    obtain ⟨s1, s2⟩ := decodeSlice_changes sc m.Changes h
    simp only [decodeMessage, messageValue, targetOf, List.foldl_cons, List.foldl_nil,
      decodeMember, i0, s1, s2, firstError, Target.message, and_self]
  | ping m =>
    have hz2 : zero = .ping { Sequence := 0, Seconds := 0, Nanos := 0 } := by
      have : construct (Message.ping m).Name
          = some (.ping { Sequence := 0, Seconds := 0, Nanos := 0 }) := by
        show construct (str "Ping") = _
        decide
      rw [this] at hz
      exact (Option.some.inj hz).symm
    subst hz2
    simp only [decodeMessage, messageValue, heartbeatValue, targetOf, List.foldl_cons,
      List.foldl_nil, decodeMember, j0, j1, j2, decodeInt, parseInt64_formatInt _ h.1,
      parseInt64_formatInt _ h.2.1, parseInt64_formatInt _ h.2.2, firstError, Target.message, and_self]
  | pong m =>
    have hz2 : zero = .pong { Sequence := 0, Seconds := 0, Nanos := 0 } := by
      have : construct (Message.pong m).Name
          = some (.pong { Sequence := 0, Seconds := 0, Nanos := 0 }) := by
        show construct (str "Pong") = _
        decide
      rw [this] at hz
      exact (Option.some.inj hz).symm
    subst hz2
    simp only [decodeMessage, messageValue, heartbeatValue, targetOf, List.foldl_cons,
      List.foldl_nil, decodeMember, j0, j1, j2, decodeInt, parseInt64_formatInt _ h.1,
      parseInt64_formatInt _ h.2.1, parseInt64_formatInt _ h.2.2, firstError, Target.message, and_self]

theorem registry_name (m : Message) : ∃ zero, construct m.Name = some zero := by
  cases m
  · exact ⟨.tickerRequest { Id := [], Tickers := none },
      (by decide : construct (str "TickerRequest") = _)⟩
  · exact ⟨.tickerChange { Changes := none }, (by decide : construct (str "TickerChange") = _)⟩
  · exact ⟨.ping { Sequence := 0, Seconds := 0, Nanos := 0 },
      (by decide : construct (str "Ping") = _)⟩
  · exact ⟨.pong { Sequence := 0, Seconds := 0, Nanos := 0 },
      (by decide : construct (str "Pong") = _)⟩

theorem sep_not_mem_name (m : Message) : Sep ∉ m.Name := by
  cases m
  · exact (by decide : Sep ∉ str "TickerRequest")
  · exact (by decide : Sep ∉ str "TickerChange")
  · exact (by decide : Sep ∉ str "Ping")
  · exact (by decide : Sep ∉ str "Pong")

theorem unmarshal_marshal (sc : Strconv) (m zero : Message) (b : GoString)
    (h : m.wellFormed sc) (hz : construct m.Name = some zero)
    (hp : Prints (parseValue maxNestingDepth) b (messageValue sc m)) :
    Unmarshal sc b zero = (m, none) := by
  have hparse : parseJSON b = some (messageValue sc m) := by
    unfold parseJSON
    have h1 := hp.skip []
    have h2 := hp.2 [] (Or.inl rfl)
    rw [List.append_nil] at h1 h2
    rw [h1, h2]
    rfl
  obtain ⟨d1, d2⟩ := decodeMessage_value sc m zero h hz
  unfold Unmarshal
  rw [hparse]
  simp only [d1, d2]

/-- Where `Decode` does undo `Encode`: for a message whose strings are valid UTF-8, whose
integers are in the range of their Go type and whose prices are finite and written by
`strconv` as a JSON number that it reads back as the same `float64`, nil and empty
ticker and change lists included, `Decode (Encode m)` returns `m` and no error. -/
theorem decode_encode_wellFormed (sc : Strconv) (m : Message) (h : m.wellFormed sc) :
    Decode sc (Encode sc m) = (some m, none) := by
  obtain ⟨b, hb, hp⟩ := prints_message sc 9997 m h
  obtain ⟨zero, hz⟩ := registry_name m
  have hu := unmarshal_marshal sc m zero b h hz hp
  have he : Encode sc m = m.Name ++ Sep :: b := by
    unfold Encode
    simp only [hb, List.append_assoc, List.singleton_append]
  rw [he, decode_split sc m.Name b (sep_not_mem_name m), hz]
  simp only [hu]

/-- **C1 (the code at the failing inputs).** `Decode` does not undo `Encode` for every
message: for the `TickerRequest` whose `Id` is the byte `0xFF`,
`Encode` writes the escape `\ufffd` and `Decode` returns the `Id` `EF BF BD`, not the
original; for a `TickerChange` with an infinite price `json.Marshal` fails, `Encode`
writes the bare frame `TickerChange:` and `Decode` returns a syntax error. -/
theorem C1_decode_encode_differs :
    Decode exampleStrconv (Encode exampleStrconv exampleBadId)
      = (some (.tickerRequest { Id := [0xEF, 0xBF, 0xBD], Tickers := none }), none) ∧
    Decode exampleStrconv (Encode exampleStrconv exampleBadId) ≠ (some exampleBadId, none) ∧
    Encode exampleStrconv exampleInfPrice = str "TickerChange:" ∧
    Decode exampleStrconv (Encode exampleStrconv exampleInfPrice)
      = (some (.tickerChange { Changes := none }), some (.unmarshal .syntaxError)) := by
  decide

theorem exampleChange_wellFormed : exampleChange.wellFormed exampleStrconv := by
  intro c hc
  simp only [exampleChange, Slice.toList, List.mem_cons, List.mem_singleton, List.not_mem_nil,
    or_false] at hc
  rcases hc with e | e <;> subst e
  · exact ⟨by decide, ⟨by decide, by decide⟩, by decide, by unfold isNumberLit; decide, by decide⟩
  · exact ⟨by decide, ⟨by decide, by decide⟩, by decide, by unfold isNumberLit; decide, by decide⟩

/-- An instance of `decode_encode_wellFormed`: the change of `X` to 1.5 and of `Y` to
100. -/
theorem decode_encode_wellFormed_example :
    exampleChange.wellFormed exampleStrconv ∧
    Decode exampleStrconv (Encode exampleStrconv exampleChange) = (some exampleChange, none) :=
  ⟨exampleChange_wellFormed, decode_encode_wellFormed exampleStrconv exampleChange exampleChange_wellFormed⟩

end WSDemo
